import Mathlib

/-!
# Verification of the jj-github stack reconciliation engine

This file gives a shallow embedding, in Lean 4, of the core of the
jj-github tool: the sync-need evaluator, the base resolver, the two-phase
sync executor, the persisted association store, the stack-comment
synchronizer and the remote pull-request lookup.  The definitions are
translated from the Go sources (internal/tui/app.go, internal/github/github.go,
internal/state/state.go, internal/jj/jj.go and the stack components).
The repository keeps several historical variants of the TUI application in
app.go; the embedding follows the most complete variant (the one with the
persisted association store and the concurrent API phase), which is the one
the referenced line ranges point into.

External effects (subprocess invocations, HTTP calls, file reads) are
modeled as explicit oracle parameters, so every definition is executable and
the theorems quantify over all possible environments.

Modeling conventions:
* Go strings are Lean `String`; helper operations used by the code
  (`strings.Cut`, `strings.Contains`, `strings.ToLower`, `strings.TrimRight`)
  are defined below by structural recursion on the character list.
  `strings.ToLower` is modeled by the ASCII case mapping; the code only
  lowercases titles to search for the ASCII literal "wip".
* Go maps are association lists with last-write-wins insertion; lookups scan
  with later entries taking precedence, matching the way the code builds the
  maps by successive assignment.  Go map iteration order is unspecified; the
  embedding iterates in list order, and no theorem below depends on the order.
* PR numbers and comment identifiers are `Nat` (they are nonnegative Go ints).
* Errors are `String` messages.
-/

namespace JJGithub

/-! ## String helpers (models of the Go strings package functions used) -/

/-- ASCII lower-casing of one character (model of unicode.ToLower as used here). -/
def asciiLower (c : Char) : Char :=
  if 'A' ≤ c ∧ c ≤ 'Z' then Char.ofNat (c.toNat + 32) else c

/-- Model of strings.ToLower (ASCII range). -/
def lowerStr (s : String) : String :=
  String.mk (s.data.map asciiLower)

/-- The cutset " \t\n\r" used by the body normalization. -/
def isTrimWS (c : Char) : Bool :=
  c = ' ' ∨ c = '\t' ∨ c = '\n' ∨ c = '\r'

/-- Model of strings.TrimRight(s, " \t\n\r"). -/
def trimTrailingWS (s : String) : String :=
  String.mk ((s.data.reverse.dropWhile isTrimWS).reverse)

/-- Split a character list at the first occurrence of sep, if any. -/
def splitFirstChar (sep : Char) : List Char → Option (List Char × List Char)
  | [] => none
  | c :: cs =>
    if c = sep then some ([], cs)
    else (splitFirstChar sep cs).map (fun p => (c :: p.1, p.2))

/-- Model of strings.Cut(s, "\x5cn"): first line and the remainder; when no
newline occurs the remainder is empty, as in Go. -/
def cutNl (s : String) : String × String :=
  match splitFirstChar '\n' s.data with
  | some (t, b) => (String.mk t, String.mk b)
  | none => (s, "")

/-- Does the list begin with the given pattern? -/
def listStartsWith [DecidableEq α] : List α → List α → Bool
  | _, [] => true
  | [], _ :: _ => false
  | a :: as, b :: bs => if a = b then listStartsWith as bs else false

/-- Substring search on character lists. -/
def listContainsSub [DecidableEq α] (hay needle : List α) : Bool :=
  match hay with
  | [] => listStartsWith ([] : List α) needle
  | _ :: t => listStartsWith hay needle || listContainsSub t needle

/-- Model of strings.Contains. -/
def containsSub (s sub : String) : Bool :=
  listContainsSub s.data sub.data

/-- Decimal rendering of a PR number, as printed by the %d format verb. -/
def natStr (n : Nat) : String := Nat.repr n

/-! ## Go maps as association lists -/

/-- Lookup in a Go map built by successive assignment: the last write wins,
so the scan lets later entries override earlier ones. -/
def mapFind [DecidableEq κ] (l : List (κ × α)) (k : κ) : Option α :=
  l.foldl (fun acc kv => if kv.1 = k then some kv.2 else acc) none

/-- Assignment m[k] = v on the association-list model of a Go map: replace the
binding in place when the key is present, otherwise append it. -/
def mapSet [DecidableEq κ] (l : List (κ × α)) (k : κ) (v : α) : List (κ × α) :=
  if l.any (fun kv => kv.1 = k) then
    l.map (fun kv => if kv.1 = k then (k, v) else kv)
  else
    l ++ [(k, v)]

/-- delete(m, k) on the association-list model. -/
def mapRemove [DecidableEq κ] (l : List (κ × α)) (k : κ) : List (κ × α) :=
  l.filter (fun kv => kv.1 ≠ k)

/-! ## Data model (internal/jj, go-github fields used, internal/state) -/

/-- A jj bookmark (the anonymous Name struct in jj.Change). -/
structure Bookmark where
  name : String
deriving DecidableEq, Repr

/-- A parent reference in jj.Change.Parents. -/
structure ParentRef where
  changeID : String
  commitID : String
deriving DecidableEq, Repr

/-- jj.Change: a revision as returned by the jj log query. -/
structure Change where
  id : String
  commitID : String
  immutable : Bool
  gitPushBookmark : String
  description : String
  bookmarks : List Bookmark
  parents : List ParentRef
deriving DecidableEq, Repr

/-- The fields of a go-github PullRequest that this code reads.  The Go
getters return zero values for nil pointers; the model stores the resulting
values directly.  closedAtSet models ClosedAt being non-nil, and
mergedAtZero models GetMergedAt().IsZero(). -/
structure PullRequest where
  number : Nat
  title : String
  body : String
  headRef : String
  headSHA : String
  baseRef : String
  draft : Bool
  closedAtSet : Bool
  mergedAtZero : Bool
  state : String
deriving DecidableEq, Repr

/-- An issue comment: identifier and body. -/
structure IssueComment where
  id : Nat
  body : String
deriving DecidableEq, Repr

/-- state.StackEntry: a persisted association record. -/
structure StackEntry where
  prNumber : Nat
  branch : String
  state : String
  title : String
deriving DecidableEq, Repr

/-- The persisted PR states (string constants in internal/state). -/
def prStateOpen : String := "open"

/-- The merged persisted PR state. -/
def prStateMerged : String := "merged"

/-- The closed persisted PR state. -/
def prStateClosed : String := "closed"

/-- The persisted state format version constant. -/
def stateVersion : Int := 1

/-- state.State as the rest of the program sees it after Load: the entries
map is always non-nil, so it is a plain association list here.  The keys are
change identities and are unique (the Go field is a map). -/
structure State where
  version : Int
  entries : List (String × StackEntry)
deriving DecidableEq, Repr

/-- state.State as deserialized from disk, where the entries map can still be
nil: entries = none models a nil Go map. -/
structure RawState where
  version : Int
  entries : Option (List (String × StackEntry))
deriving DecidableEq, Repr

/-- State.GetByChangeID. -/
def State.getByChangeID (s : State) (changeID : String) : Option StackEntry :=
  mapFind s.entries changeID

/-- State.Set. -/
def State.set (s : State) (changeID : String) (e : StackEntry) : State :=
  { s with entries := mapSet s.entries changeID e }

/-- State.Remove. -/
def State.remove (s : State) (changeID : String) : State :=
  { s with entries := mapRemove s.entries changeID }

/-! ## state.Load (internal/state/state.go lines 43-80)

The file system is modeled by a FileRead value (the outcome of os.ReadFile,
with the getJJRoot failure folded into the read-error case) and JSON
deserialization by a parse oracle: parse s = none exactly when
json.Unmarshal fails on contents s. -/

/-- Outcome of reading the persisted state file. -/
inductive FileRead where
  | missing
  | readErr (e : String)
  | content (s : String)
deriving DecidableEq, Repr

/-- state.Load: a missing file and undecodable contents both yield the empty
state with the current version and a non-nil entries map; any other read
failure is returned as an error. -/
def stateLoad (parse : String → Option RawState) : FileRead → Except String RawState
  | .missing => .ok ⟨stateVersion, some []⟩
  | .readErr e => .error e
  | .content s =>
    match parse s with
    | none => .ok ⟨stateVersion, some []⟩
    | some st => .ok ⟨st.version, some (st.entries.getD [])⟩

/-- Forget the nil/non-nil distinction once Load has established non-nilness. -/
def RawState.toState (r : RawState) : State :=
  ⟨r.version, r.entries.getD []⟩

/-! ## Stack components (internal/tui/components)

The display-only fields of components.Revision (State, StatusMsg, Error) are
elided: no claim depends on them and they never feed back into the engine. -/

/-- A merged PR row to display in the stack. -/
structure MergedPR where
  changeID : String
  prNumber : Nat
  title : String
deriving DecidableEq, Repr

/-- components.Revision (sync-relevant fields). -/
structure Revision where
  change : Change
  prNumber : Nat
  isImmutable : Bool
  isMergedPR : Bool
deriving DecidableEq, Repr

/-- components.Stack. -/
structure Stack where
  revisions : List Revision
  trunkName : String
deriving DecidableEq, Repr

/-- The zero value of jj.Change, used for display-only rows. -/
def zeroChange : Change :=
  ⟨"", "", false, "", "", [], []⟩

/-- components.NewRevision. -/
def NewRevision (change : Change) : Revision :=
  { change := change, prNumber := 0, isImmutable := change.immutable, isMergedPR := false }

/-- components.NewTrunkRevision. -/
def NewTrunkRevision (branchName : String) : Revision :=
  { change := { zeroChange with description := branchName }
    prNumber := 0, isImmutable := true, isMergedPR := false }

/-- components.NewStack: mutable changes in reverse (display) order, then the
merged PR rows, then the trunk marker. -/
def NewStack (changes : List Change) (trunkName : String) (mergedPRs : List MergedPR) : Stack :=
  { revisions :=
      (changes.reverse.filter (fun c => !c.immutable)).map NewRevision
      ++ mergedPRs.map (fun m =>
          { change := { zeroChange with description := m.title }
            prNumber := m.prNumber, isImmutable := false, isMergedPR := true })
      ++ [NewTrunkRevision trunkName]
    trunkName := trunkName }

/-- Stack.MutableRevisions: the non-trunk, non-merged rows, in display order. -/
def Stack.MutableRevisions (s : Stack) : List Revision :=
  s.revisions.filter (fun r => !r.isImmutable && !r.isMergedPR)

/-! ## Trunk name and the change index (loadRevisionsAndPRsCmd) -/

/-- Trunk name determination (app.go lines 306-312): the first bookmark of the
first change when that change is immutable, otherwise the default "main". -/
def computeTrunkName (changes : List Change) : String :=
  match changes with
  | [] => "main"
  | c :: _ =>
    if c.immutable then
      match c.bookmarks with
      | [] => "main"
      | b :: _ => b.name
    else "main"

/-- The changesByID index: built by assigning each change under its identity,
so a duplicated identity keeps the later change, as in a Go map build loop. -/
def changesById (changes : List Change) : List (String × Change) :=
  changes.map (fun c => (c.id, c))

/-- The mutable changes with a non-empty description, in order: the ones
collected into mutableChanges (and whose branches are collected) during
loading. -/
def mutableDescribed (changes : List Change) : List Change :=
  changes.filter (fun c => !c.immutable && c.description != "")

/-- The branch list handed to the remote lookup. -/
def branchesOf (changes : List Change) : List String :=
  (mutableDescribed changes).map (fun c => c.gitPushBookmark)

/-! ## Base resolver walks

The Go walks are unbounded loops over parent links; on a cyclic parent graph
they would not terminate.  The embedding bounds each walk by an explicit fuel
parameter and returns none exactly when the loop would still be running after
fuel steps; all acyclic inputs terminate with fuel larger than the number of
changes. -/

/-- The base-resolution walk of the sync executor (app.go lines 502-532),
starting from a parent change identity.  The walk exits with the base left at
the trunk name when the identity is empty (the loop condition), when the
parent has left the active revset (after consulting the persisted store for a
merged marking, which the code does without changing the outcome), or when a
mutable parent without an open PR has no parent of its own. -/
def resolveBaseWalkSync (changes : List Change) (trunkName : String)
    (existingPRs : List (String × PullRequest)) (pst : State) :
    Nat → String → Option String
  | 0, _ => none
  | Nat.succ n, pid =>
    if pid = "" then some trunkName
    else
      match mapFind (changesById changes) pid with
      | none =>
        -- Parent not in the current stack: check the persisted store for a
        -- merged entry; either way the loop breaks with the base unchanged.
        if ((pst.getByChangeID pid).map (fun e => e.state == prStateMerged)).getD false then
          some trunkName
        else
          some trunkName
      | some parent =>
        if parent.immutable then
          some (match parent.bookmarks with
                | [] => trunkName
                | b :: _ => b.name)
        else if (mapFind existingPRs parent.gitPushBookmark).isSome then
          some parent.gitPushBookmark
        else
          match parent.parents with
          | p :: _ => resolveBaseWalkSync changes trunkName existingPRs pst n p.changeID
          | [] => some trunkName

/-- The base-resolution walk of the loading-phase evaluator (app.go lines
401-429): identical to the executor walk except that the absent-parent case
breaks immediately without consulting the persisted store. -/
def resolveBaseWalkLoad (changes : List Change) (trunkName : String)
    (existingPRs : List (String × PullRequest)) :
    Nat → String → Option String
  | 0, _ => none
  | Nat.succ n, pid =>
    if pid = "" then some trunkName
    else
      match mapFind (changesById changes) pid with
      | none => some trunkName
      | some parent =>
        if parent.immutable then
          some (match parent.bookmarks with
                | [] => trunkName
                | b :: _ => b.name)
        else if (mapFind existingPRs parent.gitPushBookmark).isSome then
          some parent.gitPushBookmark
        else
          match parent.parents with
          | p :: _ => resolveBaseWalkLoad changes trunkName existingPRs n p.changeID
          | [] => some trunkName

/-- Base resolution for a revision in the sync executor: trunk when the
revision has no parents, otherwise the walk from its first parent. -/
def resolveBaseSync (changes : List Change) (trunkName : String)
    (existingPRs : List (String × PullRequest)) (pst : State)
    (fuel : Nat) (change : Change) : Option String :=
  match change.parents with
  | [] => some trunkName
  | p :: _ => resolveBaseWalkSync changes trunkName existingPRs pst fuel p.changeID

/-- Base resolution for a revision in the loading-phase evaluator. -/
def resolveBaseLoad (changes : List Change) (trunkName : String)
    (existingPRs : List (String × PullRequest))
    (fuel : Nat) (change : Change) : Option String :=
  match change.parents with
  | [] => some trunkName
  | p :: _ => resolveBaseWalkLoad changes trunkName existingPRs fuel p.changeID

/-! ## Sync-need evaluator (app.go lines 398-454) -/

/-- The title and body of a change: the description cut at the first newline. -/
def titleBodyOf (change : Change) : String × String :=
  cutNl change.description

/-- The draft flag: the lower-cased title contains the substring "wip". -/
def isDraftTitle (title : String) : Bool :=
  containsSub (lowerStr title) "wip"

/-- One iteration of the loading-phase sync-need loop: does this change need a
sync?  A missing PR, a head SHA differing from the commit identity, or any
difference in title, body (compared byte-exactly), base reference or draft
flag flags the change.  When the walk runs out of fuel the base defaults to
the trunk name (unreachable on acyclic graphs). -/
def needsSyncChange (changes : List Change) (trunkName : String)
    (existingPRs : List (String × PullRequest)) (fuel : Nat) (change : Change) : Bool :=
  let base := (resolveBaseLoad changes trunkName existingPRs fuel change).getD trunkName
  let tb := titleBodyOf change
  let isDraft := isDraftTitle tb.1
  match mapFind existingPRs change.gitPushBookmark with
  | none => true
  | some pr =>
    if pr.headSHA ≠ change.commitID then true
    else if pr.title ≠ tb.1 ∨ pr.body ≠ tb.2 ∨ pr.baseRef ≠ base ∨ pr.draft ≠ isDraft then true
    else false

/-- The aggregate needs-sync flag: the loop breaks at the first change that
needs a sync, so the flag is an existential over the mutable described
changes. -/
def needsSyncAny (changes : List Change) (trunkName : String)
    (existingPRs : List (String × PullRequest)) (fuel : Nat) : Bool :=
  (mutableDescribed changes).any (needsSyncChange changes trunkName existingPRs fuel)

/-! ## Remote lookup (internal/github/github.go lines 41-91)

The per-branch listing is an oracle.  ListPullRequestsWithCommit can fail
with a 422 response, which the code treats as the branch not having been
pushed yet; other failures are returned.  The branches are queried by an
errgroup with a concurrency limit; the embedding processes them in list
order (no claim depends on which of several failing branches reports first). -/

/-- Outcome of ListPullRequestsWithCommit for one branch. -/
inductive ListPRsOutcome where
  | ok (prs : List PullRequest)
  | notPushed
  | err (e : String)
deriving DecidableEq, Repr

/-- The worker loop of GetPullRequestsForBranches. -/
def getPullRequestsForBranchesGo (listPRs : String → ListPRsOutcome) :
    List String → List (String × PullRequest) → Except String (List (String × PullRequest))
  | [], acc => .ok acc
  | b :: rest, acc =>
    match listPRs b with
    | .err e => .error e
    | .notPushed => getPullRequestsForBranchesGo listPRs rest acc
    | .ok prs =>
      -- Filter out closed PRs and PRs whose head is a different branch.
      let opened := prs.filter (fun pr => !pr.closedAtSet && pr.headRef == b)
      match opened with
      | [] => getPullRequestsForBranchesGo listPRs rest acc
      | [pr] => getPullRequestsForBranchesGo listPRs rest (mapSet acc b pr)
      | _ :: _ :: _ =>
        .error ("branch \"" ++ b ++ "\" unexpectedly has "
                ++ natStr opened.length ++ " open pull requests")

/-- GetPullRequestsForBranches: at most one open pull request per branch;
more than one is an error that fails the whole lookup. -/
def getPullRequestsForBranches (listPRs : String → ListPRsOutcome)
    (branches : List String) : Except String (List (String × PullRequest)) :=
  getPullRequestsForBranchesGo listPRs branches []

/-! ## Persisted-entry refresh (app.go lines 354-396)

GetPullRequest is not part of the sources under verification; it is modeled
as an oracle returning the PR when retrievable, none when the PR was deleted,
or an error when the API call fails. -/

/-- The body of the refresh loop over a snapshot of the persisted entries,
accumulating the updated store, the merged-PR display rows and the change
identities scheduled for removal. -/
def refreshLoop (getPR : Nat → Except String (Option PullRequest)) (changes : List Change) :
    List (String × StackEntry) → State → List MergedPR → List String →
    Except String (State × List MergedPR × List String)
  | [], st, merged, toRemove => .ok (st, merged, toRemove)
  | (changeID, entry) :: rest, st, merged, toRemove =>
    -- Skip entries for changes that are still in the local stack.
    if (mapFind (changesById changes) changeID).isSome then
      refreshLoop getPR changes rest st merged toRemove
    else
      match getPR entry.prNumber with
      | .error e => .error ("get PR #" ++ natStr entry.prNumber ++ ": " ++ e)
      | .ok none =>
        -- The PR was deleted.
        refreshLoop getPR changes rest st merged (toRemove ++ [changeID])
      | .ok (some pr) =>
        if !pr.mergedAtZero then
          -- Merged: mark the entry and keep it for display.
          refreshLoop getPR changes rest
            (st.set changeID { entry with state := prStateMerged })
            (merged ++ [⟨changeID, entry.prNumber, entry.title⟩]) toRemove
        else if pr.state = "closed" then
          -- Closed without merging: schedule removal.
          refreshLoop getPR changes rest st merged (toRemove ++ [changeID])
        else
          -- Still open: keep as-is.
          refreshLoop getPR changes rest st merged toRemove

/-- The refresh step: run the loop over the current entries, then remove the
closed and deleted ones. -/
def refreshEntries (getPR : Nat → Except String (Option PullRequest))
    (changes : List Change) (pst : State) : Except String (State × List MergedPR) :=
  match refreshLoop getPR changes pst.entries pst [] [] with
  | .error e => .error e
  | .ok (st, merged, toRemove) => .ok (toRemove.foldl State.remove st, merged)

/-! ## The environment of one run -/

/-- github.PullRequestOptions. -/
structure PullRequestOptions where
  title : String
  body : String
  branch : String
  base : String
  draft : Bool
deriving DecidableEq, Repr

/-- All external effects of one submit run, as oracles.  Each field models
one collaborator call; the engine under verification is deterministic given
this environment. -/
structure Env where
  fetchErr : Option String
  changesResult : Except String (List Change)
  stateFile : FileRead
  parse : String → Option RawState
  listPRs : String → ListPRsOutcome
  getPR : Nat → Except String (Option PullRequest)
  pushRes : String → Option String
  updatePRRes : Nat → PullRequestOptions → Option String
  createPRRes : PullRequestOptions → Except String PullRequest
  listComments : Nat → Except String (List IssueComment)
  updateCommentRes : Nat → String → Option String
  createCommentRes : Nat → String → Option String
  saveErr : Option String

/-! ## Loading phase (app.go lines 287-465) -/

/-- The successful payload of RevisionsLoadedMsg; the error alternative is the
Except wrapper around it. -/
structure LoadedData where
  changes : List Change
  trunkName : String
  existingPRs : List (String × PullRequest)
  state : State
  mergedPRs : List MergedPR
  needsSync : Bool
deriving Repr

/-- loadRevisionsAndPRsCmd: fetch, query revisions, load the persisted state,
look up existing PRs, fold branch-matched PRs into the store, refresh stale
entries, and evaluate the aggregate needs-sync flag.  The evaluator walk is
given fuel one larger than the number of changes, which covers every acyclic
parent graph. -/
def loadRevisionsAndPRs (env : Env) : Except String LoadedData :=
  match env.fetchErr with
  | some e => .error ("git fetch: " ++ e)
  | none =>
  match env.changesResult with
  | .error e => .error e
  | .ok changes =>
  match stateLoad env.parse env.stateFile with
  | .error e => .error ("load state: " ++ e)
  | .ok raw =>
  let prState := raw.toState
  let trunkName := computeTrunkName changes
  let mutableChanges := mutableDescribed changes
  if mutableChanges.isEmpty then
    .ok { changes := changes, trunkName := trunkName, existingPRs := []
          state := prState, mergedPRs := [], needsSync := false }
  else
    match getPullRequestsForBranches env.listPRs (branchesOf changes) with
    | .error e => .error e
    | .ok existingPRs =>
      -- Add any PRs found by branch matching that are not yet in the state.
      let prState := mutableChanges.foldl (fun st c =>
        match mapFind existingPRs c.gitPushBookmark with
        | some pr =>
          st.set c.id ⟨pr.number, c.gitPushBookmark, prStateOpen, (cutNl c.description).1⟩
        | none => st) prState
      match refreshEntries env.getPR changes prState with
      | .error e => .error e
      | .ok (prState, mergedPRs) =>
        .ok { changes := changes, trunkName := trunkName, existingPRs := existingPRs
              state := prState, mergedPRs := mergedPRs
              needsSync := needsSyncAny changes trunkName existingPRs (changes.length + 1) }

/-! ## Sync executor (app.go lines 467-593) -/

/-- The first eight characters of a change identity, as used in the push error
message.  The Go slice expression panics on shorter identities; real jj
change identities are 32 characters. -/
def shortId (id : String) : String :=
  String.mk (id.data.take 8)

/-- Phase 1, the push loop: one jj git push per mutable revision, walked in
base-to-tip order (the caller passes the display list reversed), returning
the identities passed to the push command in order and the wrapped error of
the first failing push, at which the loop returns immediately. -/
def pushPhase (pushRes : String → Option String) : List Revision → List String × Option String
  | [] => ([], none)
  | r :: rest =>
    match pushRes r.change.id with
    | some e => ([r.change.id], some ("push " ++ shortId r.change.id ++ ": " ++ e))
    | none =>
      let t := pushPhase pushRes rest
      (r.change.id :: t.1, t.2)

/-- A hosting-service write performed by the API phase. -/
inductive ApiOp where
  | updatePR (number : Nat) (opts : PullRequestOptions)
  | createPR (opts : PullRequestOptions)
deriving DecidableEq, Repr

/-- RevisionSyncedMsg, the per-revision result record of the API phase. -/
structure RevisionSyncedMsg where
  changeID : String
  prNumber : Nat
  title : String
  branch : String
  created : Bool
  err : Option String
deriving DecidableEq, Repr

/-- One API-phase task (the closure passed to the error group, lines 499-579):
recompute the base and metadata, then update the existing PR or create a new
one.  The task records its outcome in its result and always returns success
to the group, so no task cancels any other.  Returns the API call made, the
result record, and the created PR when one was created. -/
def apiTask (env : Env) (changes : List Change) (trunkName : String)
    (existingPRs : List (String × PullRequest)) (pst : State) (fuel : Nat)
    (change : Change) : ApiOp × RevisionSyncedMsg × Option (String × PullRequest) :=
  let base := (resolveBaseSync changes trunkName existingPRs pst fuel change).getD trunkName
  let tb := cutNl change.description
  let isDraft := isDraftTitle tb.1
  let opts : PullRequestOptions := ⟨tb.1, tb.2, change.gitPushBookmark, base, isDraft⟩
  match mapFind existingPRs change.gitPushBookmark with
  | some pr =>
    (.updatePR pr.number opts,
     { changeID := change.id, prNumber := pr.number, title := tb.1
       branch := change.gitPushBookmark, created := false
       err := env.updatePRRes pr.number opts },
     none)
  | none =>
    match env.createPRRes opts with
    | .error e =>
      (.createPR opts,
       { changeID := change.id, prNumber := 0, title := tb.1
         branch := change.gitPushBookmark, created := false, err := some e },
       none)
    | .ok pr =>
      (.createPR opts,
       { changeID := change.id, prNumber := pr.number, title := tb.1
         branch := change.gitPushBookmark, created := true, err := none },
       some (change.gitPushBookmark, pr))

/-- The observable outcome of syncAllRevisionsCmd: the push attempts in
order, the hosting-service calls of the API phase, the per-revision results,
the created PRs, and the message-level error (set only by a push failure,
since every API task reports its error in its result instead). -/
structure SyncOutcome where
  pushTrace : List String
  apiOps : List ApiOp
  results : List RevisionSyncedMsg
  createdPRs : List (String × PullRequest)
  err : Option String
deriving Repr

/-- syncAllRevisionsCmd: the sequential push phase over the mutable revisions
in base-to-tip order, aborted on first failure, followed by the API phase
over every mutable revision.  The concurrent API tasks are embedded in
display order; their group always joins without error. -/
def syncAllRevisions (env : Env) (changes : List Change) (stack : Stack)
    (existingPRs : List (String × PullRequest)) (pst : State) : SyncOutcome :=
  let mutableRevs := stack.MutableRevisions
  if mutableRevs.isEmpty then
    { pushTrace := [], apiOps := [], results := [], createdPRs := [], err := none }
  else
    let pushed := pushPhase env.pushRes mutableRevs.reverse
    match pushed.2 with
    | some e =>
      { pushTrace := pushed.1, apiOps := [], results := [], createdPRs := [], err := some e }
    | none =>
      let tasks := mutableRevs.map (fun r =>
        apiTask env changes stack.trunkName existingPRs pst (changes.length + 1) r.change)
      { pushTrace := pushed.1
        apiOps := tasks.map (fun t => t.1)
        results := tasks.map (fun t => t.2.1)
        createdPRs := tasks.filterMap (fun t => t.2.2)
        err := none }

/-! ## Phase state machine (the Update handlers of the model) -/

/-- The phases of the sync workflow. -/
inductive Phase where
  | loading
  | upToDate
  | confirmation
  | syncing
  | updatingComments
  | complete
  | error
deriving DecidableEq, Repr

/-- The AllRevisionsSyncedMsg handler of Update (lines 175-214), reduced to
its phase decision: the first result carrying an error sends the model to the
error phase with that error; otherwise the run moves on to the comment
phase. -/
def processSyncResults (results : List RevisionSyncedMsg) : Phase × Option String :=
  match results.find? (fun r => r.err.isSome) with
  | some r => (.error, r.err)
  | none => (.updatingComments, none)

/-- The state and PR-map updates the handler applies on the all-success path:
record each synced PR in the persisted store and fill PR-map holes with a
number-only PR value (the Go zero value with only Number set). -/
def applySyncResults (pst : State) (existingPRs : List (String × PullRequest))
    (results : List RevisionSyncedMsg) : State × List (String × PullRequest) :=
  results.foldl (fun acc r =>
    (acc.1.set r.changeID ⟨r.prNumber, r.branch, prStateOpen, r.title⟩,
     if (mapFind acc.2 r.branch).isNone then
       mapSet acc.2 r.branch
         { number := r.prNumber, title := "", body := "", headRef := "", headSHA := ""
           baseRef := "", draft := false, closedAtSet := false, mergedAtZero := true
           state := "" }
     else acc.2)) (pst, existingPRs)

/-! ## Comment synchronizer (app.go lines 595-695, github.go lines 166-206) -/

/-- The managed-by marker searched for in existing comments. -/
def stackMarker : String := "<!-- managed-by: jj-github -->"

/-- The worker loop of GetPRCommentsContaining: per PR, keep the comments
containing the marker substring and record the last one in listing order. -/
def getPRCommentsContainingGo (listComments : Nat → Except String (List IssueComment))
    (contents : String) :
    List Nat → List (Nat × IssueComment) → Except String (List (Nat × IssueComment))
  | [], acc => .ok acc
  | p :: rest, acc =>
    match listComments p with
    | .error e => .error e
    | .ok issues =>
      let kept := issues.filter (fun c => containsSub c.body contents)
      match kept.getLast? with
      | none => getPRCommentsContainingGo listComments contents rest acc
      | some c => getPRCommentsContainingGo listComments contents rest (mapSet acc p c)

/-- GetPRCommentsContaining. -/
def getPRCommentsContaining (listComments : Nat → Except String (List IssueComment))
    (pullRequests : List Nat) (contents : String) :
    Except String (List (Nat × IssueComment)) :=
  getPRCommentsContainingGo listComments contents pullRequests []

/-- The generated stack-comment body for the PR numbered curNumber: the
marker, a heading, one row per displayed PR in display order (merged rows
annotated, the current row marked), and a footer. -/
def buildStackComment (revisions : List Revision)
    (existingPRs : List (String × PullRequest)) (curNumber : Nat) : String :=
  let rows := revisions.foldl (fun s r =>
    if r.isImmutable then s
    else if r.isMergedPR then
      s ++ "- #" ++ natStr r.prNumber ++ " (merged)\n"
    else
      match mapFind existingPRs r.change.gitPushBookmark with
      | none => s
      | some prr =>
        s ++ "- #" ++ natStr prr.number
          ++ (if curNumber = prr.number then " ←" else "") ++ "\n") ""
  stackMarker ++ "\n" ++ "**Pull Request Stack**\n\n" ++ rows
    ++ "\n---\n" ++ "*Stack managed with [jj-github](https://github.com/cbrewster/jj-github)*"

/-- A comment write performed against the hosting service. -/
inductive CommentOp where
  | update (pr : Nat) (commentID : Nat) (body : String)
  | create (pr : Nat) (body : String)
deriving DecidableEq, Repr

/-- The per-PR upsert loop of updateAllCommentsCmd (lines 613-684): for every
displayed mutable revision with a PR, regenerate the body; skip when an
existing marker comment already carries exactly that body, update it when it
differs, create a comment when none exists; abort on the first write
failure. -/
def commentLoop (env : Env) (allRevs : List Revision)
    (existingPRs : List (String × PullRequest))
    (stackComments : List (Nat × IssueComment)) :
    List Revision → List CommentOp × Option String
  | [] => ([], none)
  | r :: rest =>
    if r.isImmutable || r.isMergedPR then
      commentLoop env allRevs existingPRs stackComments rest
    else
      match mapFind existingPRs r.change.gitPushBookmark with
      | none => commentLoop env allRevs existingPRs stackComments rest
      | some pr =>
        -- The regenerated body for this PR (commentBody in the source) is
        -- written out at each use to keep rewriting syntactic.
        match mapFind stackComments pr.number with
        | some existing =>
          if existing.body = buildStackComment allRevs existingPRs pr.number then
            commentLoop env allRevs existingPRs stackComments rest
          else
            match env.updateCommentRes existing.id
                (buildStackComment allRevs existingPRs pr.number) with
            | some e =>
              ([.update pr.number existing.id
                  (buildStackComment allRevs existingPRs pr.number)], some e)
            | none =>
              let t := commentLoop env allRevs existingPRs stackComments rest
              (.update pr.number existing.id
                  (buildStackComment allRevs existingPRs pr.number) :: t.1, t.2)
        | none =>
          match env.createCommentRes pr.number
              (buildStackComment allRevs existingPRs pr.number) with
          | some e =>
            ([.create pr.number (buildStackComment allRevs existingPRs pr.number)], some e)
          | none =>
            let t := commentLoop env allRevs existingPRs stackComments rest
            (.create pr.number (buildStackComment allRevs existingPRs pr.number) :: t.1, t.2)

/-- updateAllCommentsCmd: fetch the existing marker comments of all known
PRs, run the upsert loop, and finally write the persisted state back. -/
def updateAllComments (env : Env) (stack : Stack)
    (existingPRs : List (String × PullRequest)) : List CommentOp × Option String :=
  match getPRCommentsContaining env.listComments
      (existingPRs.map (fun kv => kv.2.number)) stackMarker with
  | .error e => ([], some e)
  | .ok stackComments =>
    let t := commentLoop env stack.revisions existingPRs stackComments stack.revisions
    match t.2 with
    | some e => (t.1, some e)
    | none =>
      match env.saveErr with
      | some e => (t.1, some ("save state: " ++ e))
      | none => (t.1, none)

/-! ## One full submit run

The run drives the phase machine: load, then (on confirmation, modeled as
the user acknowledging) the executor, then the comment phase.  Any error
lands in the terminal error phase with the triggering error preserved. -/

/-- The observable outcome of one run. -/
structure RunOut where
  finalPhase : Phase
  pushTrace : List String
  apiOps : List ApiOp
  commentOps : List CommentOp
  err : Option String
deriving Repr

/-- One submit run end to end. -/
def runSubmit (env : Env) : RunOut :=
  match loadRevisionsAndPRs env with
  | .error e => ⟨.error, [], [], [], some e⟩
  | .ok l =>
    if !l.needsSync then ⟨.upToDate, [], [], [], none⟩
    else
      let stack := NewStack l.changes l.trunkName l.mergedPRs
      let s := syncAllRevisions env l.changes stack l.existingPRs l.state
      match s.err with
      | some e => ⟨.error, s.pushTrace, s.apiOps, [], some e⟩
      | none =>
        match processSyncResults s.results with
        | (.error, e) => ⟨.error, s.pushTrace, s.apiOps, [], e⟩
        | _ =>
          let prs1 := s.createdPRs.foldl (fun m kv => mapSet m kv.1 kv.2) l.existingPRs
          let applied := applySyncResults l.state prs1 s.results
          let t := updateAllComments env stack applied.2
          match t.2 with
          | some e => ⟨.error, s.pushTrace, s.apiOps, t.1, some e⟩
          | none => ⟨.complete, s.pushTrace, s.apiOps, t.1, none⟩

/-! ## The base-resolution rule list as specified

For the refinement comparison of the base resolver against its specification,
the rule list is transcribed literally from the specification text (section
4.2): this is the spec side, to be compared with resolveBaseWalkSync, which
is the code side. -/

/-- Outcome of running the specified rule list: a base when a terminating rule
is reached, stuck when the rules prescribe nothing (an immutable parent
without bookmarks in rule 2, or a parentless mutable parent in rule 4), or
noFuel when the bound is exhausted before a terminating rule. -/
inductive WalkOut where
  | base (b : String)
  | stuck
  | noFuel
deriving DecidableEq, Repr

/-- The rule list of the specified base resolver, read literally: rule 1
(parent absent from changesByID) resolves to trunk; rule 2 (immutable parent)
prescribes the first bookmark name; rule 3 (parent with an open PR)
prescribes the parent branch; rule 4 walks to the parent of the parent.
Rule 1 absorbs the merged-marking consultation since both of its outcomes
are the trunk name. -/
def claimRulesWalk (changes : List Change) (trunkName : String)
    (existingPRs : List (String × PullRequest)) : Nat → String → WalkOut
  | 0, _ => .noFuel
  | Nat.succ n, pid =>
    match mapFind (changesById changes) pid with
    | none => .base trunkName
    | some p =>
      if p.immutable then
        match p.bookmarks with
        | [] => .stuck
        | b :: _ => .base b.name
      else if (mapFind existingPRs p.gitPushBookmark).isSome then
        .base p.gitPushBookmark
      else
        match p.parents with
        | q :: _ => claimRulesWalk changes trunkName existingPRs n q.changeID
        | [] => .stuck

/-- The amended rule list: identical, except that a parent link whose change
identity is the empty string is terminal with the trunk name (the code loop
condition exits before any rule is consulted), even when a change with the
empty identity is listed. -/
def claimRulesWalkAmended (changes : List Change) (trunkName : String)
    (existingPRs : List (String × PullRequest)) : Nat → String → WalkOut
  | 0, _ => .noFuel
  | Nat.succ n, pid =>
    if pid = "" then .base trunkName
    else
      match mapFind (changesById changes) pid with
      | none => .base trunkName
      | some p =>
        if p.immutable then
          match p.bookmarks with
          | [] => .stuck
          | b :: _ => .base b.name
        else if (mapFind existingPRs p.gitPushBookmark).isSome then
          .base p.gitPushBookmark
        else
          match p.parents with
          | q :: _ => claimRulesWalkAmended changes trunkName existingPRs n q.changeID
          | [] => .stuck

/-! ## Lemmas about the association-list model of Go maps -/

theorem mapFind_foldl {κ α : Type} [DecidableEq κ] (l : List (κ × α)) (k : κ) (acc : Option α) :
    l.foldl (fun acc kv => if kv.1 = k then some kv.2 else acc) acc
      = (mapFind l k).elim acc some := by
  induction l generalizing acc with
  | nil => simp [mapFind]
  | cons a l ih =>
    show l.foldl _ _ = (mapFind (a :: l) k).elim acc some
    rw [ih]
    have : mapFind (a :: l) k
        = (mapFind l k).elim (if a.1 = k then some a.2 else none) some := by
      show l.foldl _ _ = _
      rw [ih]
    rw [this]
    cases mapFind l k <;> by_cases h : a.1 = k <;> simp [h]

theorem mapFind_cons {κ α : Type} [DecidableEq κ] (a : κ × α) (l : List (κ × α)) (k : κ) :
    mapFind (a :: l) k = (mapFind l k).elim (if a.1 = k then some a.2 else none) some := by
  show l.foldl _ _ = _
  exact mapFind_foldl l k _

theorem mapFind_append_singleton {κ α : Type} [DecidableEq κ]
    (l : List (κ × α)) (a : κ × α) (k : κ) :
    mapFind (l ++ [a]) k = if a.1 = k then some a.2 else mapFind l k := by
  unfold mapFind
  rw [List.foldl_append]
  rfl

theorem mapFind_mem {κ α : Type} [DecidableEq κ] {l : List (κ × α)} {k : κ} {v : α}
    (h : mapFind l k = some v) : (k, v) ∈ l := by
  induction l using List.reverseRecOn with
  | nil => simp [mapFind] at h
  | append_singleton l a ih =>
    rw [mapFind_append_singleton] at h
    by_cases ha : a.1 = k
    · rw [if_pos ha] at h
      have hae : a = (k, v) := by
        obtain ⟨a1, a2⟩ := a
        simp only at ha
        simp only [Option.some.injEq] at h
        rw [ha, h]
      subst hae
      simp
    · rw [if_neg ha] at h
      exact List.mem_append_left _ (ih h)

theorem mapFind_eq_none_iff {κ α : Type} [DecidableEq κ] (l : List (κ × α)) (k : κ) :
    mapFind l k = none ↔ ∀ kv ∈ l, kv.1 ≠ k := by
  induction l using List.reverseRecOn with
  | nil => simp [mapFind]
  | append_singleton l a ih =>
    rw [mapFind_append_singleton]
    constructor
    · intro h kv hkv
      by_cases ha : a.1 = k
      · rw [if_pos ha] at h
        cases h
      · rw [if_neg ha] at h
        rcases List.mem_append.mp hkv with hl | hr
        · exact (ih.mp h) kv hl
        · rw [List.mem_singleton] at hr
          subst hr
          exact ha
    · intro h
      have ha : a.1 ≠ k := h a (List.mem_append_right _ (by simp))
      rw [if_neg ha]
      exact ih.mpr (fun kv hkv => h kv (List.mem_append_left _ hkv))

theorem mapFind_of_nodup_mem {κ α : Type} [DecidableEq κ] {l : List (κ × α)} {k : κ} {v : α}
    (hnd : (l.map Prod.fst).Nodup) (hm : (k, v) ∈ l) : mapFind l k = some v := by
  induction l using List.reverseRecOn with
  | nil => cases hm
  | append_singleton l a ih =>
    rw [List.map_append] at hnd
    have hnd' := List.Nodup.of_append_left hnd
    rw [mapFind_append_singleton]
    rcases List.mem_append.mp hm with hl | hr
    · have hak : a.1 ≠ k := by
        intro hc
        have hkmem : k ∈ l.map Prod.fst := by
          rw [List.mem_map]
          exact ⟨(k, v), hl, rfl⟩
        have := (List.disjoint_of_nodup_append hnd) hkmem
        simp [hc] at this
      rw [if_neg hak]
      exact ih hnd' hl
    · rw [List.mem_singleton] at hr
      rw [← hr]
      simp

theorem mapFind_map_replace_self {κ α : Type} [DecidableEq κ] (l : List (κ × α)) (k : κ) (v : α) :
    mapFind (l.map (fun kv => if kv.1 = k then (k, v) else kv)) k
      = if l.any (fun kv => kv.1 = k) then some v else none := by
  induction l using List.reverseRecOn with
  | nil => simp [mapFind]
  | append_singleton l a ih =>
    rw [List.map_append, List.map_singleton, mapFind_append_singleton, List.any_append]
    by_cases ha : a.1 = k
    · simp [ha]
    · have hga : (if a.1 = k then (k, v) else a) = a := if_neg ha
      rw [hga, if_neg ha, ih]
      simp only [List.any_cons, List.any_nil, Bool.or_false]
      rw [decide_eq_false ha, Bool.or_false]

theorem mapFind_map_replace_other {κ α : Type} [DecidableEq κ] (l : List (κ × α)) (k' k : κ)
    (v : α) (h : k' ≠ k) :
    mapFind (l.map (fun kv => if kv.1 = k' then (k', v) else kv)) k = mapFind l k := by
  induction l using List.reverseRecOn with
  | nil => rfl
  | append_singleton l a ih =>
    rw [List.map_append, List.map_singleton, mapFind_append_singleton,
      mapFind_append_singleton, ih]
    by_cases ha : a.1 = k'
    · simp [ha, h]
    · simp [ha]

theorem mapFind_mapSet_self {κ α : Type} [DecidableEq κ] (l : List (κ × α)) (k : κ) (v : α) :
    mapFind (mapSet l k v) k = some v := by
  unfold mapSet
  by_cases hp : l.any (fun kv => kv.1 = k)
  · rw [if_pos hp, mapFind_map_replace_self, if_pos hp]
  · rw [if_neg hp, mapFind_append_singleton]
    simp

theorem mapFind_mapSet_other {κ α : Type} [DecidableEq κ] (l : List (κ × α)) (k' k : κ) (v : α)
    (h : k' ≠ k) : mapFind (mapSet l k' v) k = mapFind l k := by
  unfold mapSet
  by_cases hp : l.any (fun kv => kv.1 = k')
  · rw [if_pos hp, mapFind_map_replace_other _ _ _ _ h]
  · rw [if_neg hp, mapFind_append_singleton, if_neg (by simpa using h)]

theorem mapFind_mapSet_eq {κ α : Type} [DecidableEq κ] (l : List (κ × α)) (k' k : κ) (v : α) :
    mapFind (mapSet l k' v) k = if k' = k then some v else mapFind l k := by
  by_cases h : k' = k
  · subst h
    rw [if_pos rfl, mapFind_mapSet_self]
  · rw [if_neg h, mapFind_mapSet_other _ _ _ _ h]

theorem mapFind_mapRemove_self {κ α : Type} [DecidableEq κ] (l : List (κ × α)) (k : κ) :
    mapFind (mapRemove l k) k = none := by
  rw [mapFind_eq_none_iff]
  intro kv hkv
  have := List.of_mem_filter hkv
  simpa using this

theorem mapFind_mapRemove_other {κ α : Type} [DecidableEq κ] (l : List (κ × α)) (k' k : κ)
    (h : k' ≠ k) : mapFind (mapRemove l k') k = mapFind l k := by
  unfold mapRemove
  induction l with
  | nil => rfl
  | cons a l ih =>
    by_cases ha : a.1 = k'
    · rw [List.filter_cons_of_neg (by simp [ha]), ih, mapFind_cons]
      have : ¬a.1 = k := by rw [ha]; exact h
      simp only [this, if_false]
      cases mapFind l k <;> simp
    · rw [List.filter_cons_of_pos (by simp [ha]), mapFind_cons, mapFind_cons, ih]

/-! ## Claim C7: state load tolerates a missing or corrupt file -/

/-- C7: loading the persisted association store with a missing state file, or
with a file whose contents do not decode as JSON, always succeeds and returns
the empty state: the current version and a non-nil empty entries map; in
neither of these two cases does the load step fail the run. -/
theorem c7_load_tolerates_missing_or_corrupt (parse : String → Option RawState) (s : String)
    (hbad : parse s = none) :
    stateLoad parse .missing = .ok ⟨stateVersion, some []⟩
    ∧ stateLoad parse (.content s) = .ok ⟨stateVersion, some []⟩ := by
  constructor
  · rfl
  · simp only [stateLoad]
    rw [hbad]

theorem c7_witness :
    stateLoad (fun _ => none) .missing = .ok ⟨stateVersion, some []⟩
    ∧ stateLoad (fun _ => none) (.content "definitely not json") = .ok ⟨stateVersion, some []⟩ :=
  c7_load_tolerates_missing_or_corrupt (fun _ => none) "definitely not json" rfl

/-! ## Claim C1: the sync-need evaluator and up-to-date pull requests

The loading-phase evaluator of the variant with the persisted store compares
the PR body byte-exactly against the local body (app.go line 448); the
trailing-whitespace-normalized comparison exists only in the later
per-revision variant (lines 1575-1576).  The claim as stated, with the
trimmed comparison, is refuted by a PR whose body differs from the local
body only by trailing whitespace; the amended claim requires the bodies to
match byte-exactly. -/

/-- A change used by the C1 counterexample: title "Add feature", body
"Some body". -/
def c1Change : Change :=
  { id := "aaaaaaaaaaaa", commitID := "ca", immutable := false
    gitPushBookmark := "push-aaaa", description := "Add feature\nSome body"
    bookmarks := [], parents := [] }

/-- The open PR of the C1 counterexample: identical to the local metadata
except for one trailing space in the body. -/
def c1PR : PullRequest :=
  { number := 12, title := "Add feature", body := "Some body ", headRef := "push-aaaa"
    headSHA := "ca", baseRef := "main", draft := false, closedAtSet := false
    mergedAtZero := true, state := "open" }

/-- C1 counterexample: the PR matches the revision on title,
trailing-whitespace-trimmed body, computed base, draft flag and head SHA,
yet the evaluator reports that the revision needs a sync and the aggregate
needs-sync flag is true, where the claim demands "no sync needed" and an
aggregate of false. -/
theorem c1_counterexample :
    mapFind [("push-aaaa", c1PR)] c1Change.gitPushBookmark = some c1PR
    ∧ c1PR.headSHA = c1Change.commitID
    ∧ c1PR.title = (titleBodyOf c1Change).1
    ∧ trimTrailingWS c1PR.body = trimTrailingWS (titleBodyOf c1Change).2
    ∧ c1PR.baseRef
        = (resolveBaseLoad [c1Change] "main" [("push-aaaa", c1PR)] 2 c1Change).getD "main"
    ∧ c1PR.draft = isDraftTitle (titleBodyOf c1Change).1
    ∧ needsSyncChange [c1Change] "main" [("push-aaaa", c1PR)] 2 c1Change = true
    ∧ needsSyncAny [c1Change] "main" [("push-aaaa", c1PR)] 2 = true := by
  decide

/-- The amended up-to-date condition for one revision against its PR: head
SHA equals the commit identity, and title, body (byte-exact), base reference
and draft flag all equal the locally computed values. -/
def PRUpToDate (changes : List Change) (trunkName : String)
    (existingPRs : List (String × PullRequest)) (fuel : Nat)
    (c : Change) (pr : PullRequest) : Prop :=
  pr.headSHA = c.commitID
  ∧ pr.title = (titleBodyOf c).1
  ∧ pr.body = (titleBodyOf c).2
  ∧ pr.baseRef = (resolveBaseLoad changes trunkName existingPRs fuel c).getD trunkName
  ∧ pr.draft = isDraftTitle (titleBodyOf c).1

/-- C1 (amended): for every mutable revision whose branch has an existing
open pull request matching its computed title, byte-exact body, computed
base branch, draft flag and head commit SHA, the evaluator reports no sync
needed, and when this holds for all mutable described revisions the
aggregate needs-sync flag is false.  (The byte-exact body comparison is the
amendment; the claimed trailing-whitespace normalization is absent from this
evaluator.) -/
theorem c1_exact_match_no_sync (changes : List Change) (trunkName : String)
    (prs : List (String × PullRequest)) (fuel : Nat) :
    (∀ c pr, mapFind prs c.gitPushBookmark = some pr →
      PRUpToDate changes trunkName prs fuel c pr →
      needsSyncChange changes trunkName prs fuel c = false)
    ∧ ((∀ c ∈ mutableDescribed changes, ∃ pr,
          mapFind prs c.gitPushBookmark = some pr ∧ PRUpToDate changes trunkName prs fuel c pr) →
        needsSyncAny changes trunkName prs fuel = false) := by
  have hone : ∀ c pr, mapFind prs c.gitPushBookmark = some pr →
      PRUpToDate changes trunkName prs fuel c pr →
      needsSyncChange changes trunkName prs fuel c = false := by
    intro c pr hpr hup
    obtain ⟨h1, h2, h3, h4, h5⟩ := hup
    unfold needsSyncChange
    rw [hpr]
    simp only [h1, h2, h3, h4, h5]
    simp
  refine ⟨hone, fun h => ?_⟩
  unfold needsSyncAny
  rw [List.any_eq_false]
  intro c hc
  obtain ⟨pr, hpr, hup⟩ := h c hc
  rw [hone c pr hpr hup]
  simp

/-- A change whose PR matches it byte-exactly, for the C1 witness. -/
def c1wChange : Change :=
  { id := "bbbbbbbbbbbb", commitID := "cb", immutable := false
    gitPushBookmark := "push-bbbb", description := "Fix bug\nThe body"
    bookmarks := [], parents := [] }

/-- The byte-exactly matching PR of the C1 witness. -/
def c1wPR : PullRequest :=
  { number := 5, title := "Fix bug", body := "The body", headRef := "push-bbbb"
    headSHA := "cb", baseRef := "main", draft := false, closedAtSet := false
    mergedAtZero := true, state := "open" }

theorem c1_witness :
    needsSyncChange [c1wChange] "main" [("push-bbbb", c1wPR)] 2 c1wChange = false
    ∧ needsSyncAny [c1wChange] "main" [("push-bbbb", c1wPR)] 2 = false := by
  have h := c1_exact_match_no_sync [c1wChange] "main" [("push-bbbb", c1wPR)] 2
  refine ⟨h.1 c1wChange c1wPR rfl ⟨rfl, rfl, rfl, rfl, rfl⟩, h.2 ?_⟩
  intro c hc
  have hc1 : c = c1wChange := by
    have : mutableDescribed [c1wChange] = [c1wChange] := by decide
    rw [this] at hc
    exact List.mem_singleton.mp hc
  subst hc1
  exact ⟨c1wPR, rfl, rfl, rfl, rfl, rfl, rfl⟩

/-! ## Claim C2: the base resolver follows the specified rule list

The rule list as stated diverges from the code on a parent link whose change
identity is the empty string: the Go loop condition exits immediately with
the trunk name, while the rules look the identity up in changesByID (where a
change with an empty identity can be listed) and then apply rules 2-4 to it.
With that proviso amended in, the resolver returns the base of the first
terminating rule whenever one is reached. -/

/-- A simulation of the amended rule list by the executor walk: whenever the
rules reach a terminating rule with base b, the walk returns b, for any
persisted store. -/
theorem claimRules_amended_sim (changes : List Change) (trunkName : String)
    (prs : List (String × PullRequest)) (pst : State) :
    ∀ fuel pid b, claimRulesWalkAmended changes trunkName prs fuel pid = .base b →
      resolveBaseWalkSync changes trunkName prs pst fuel pid = some b := by
  intro fuel
  induction fuel with
  | zero =>
    intro pid b h
    simp [claimRulesWalkAmended] at h
  | succ n ih =>
    intro pid b h
    unfold claimRulesWalkAmended at h
    unfold resolveBaseWalkSync
    by_cases hpid : pid = ""
    · rw [if_pos hpid] at h ⊢
      cases h
      rfl
    · rw [if_neg hpid] at h ⊢
      cases hfind : mapFind (changesById changes) pid with
      | none =>
        rw [hfind] at h
        dsimp only at h ⊢
        cases h
        simp
      | some p =>
        rw [hfind] at h
        dsimp only at h ⊢
        by_cases himm : p.immutable = true
        · simp only [himm, if_true] at h ⊢
          cases hbm : p.bookmarks with
          | nil =>
            rw [hbm] at h
            cases h
          | cons b0 bs =>
            rw [hbm] at h
            dsimp only at h ⊢
            cases h
            rfl
        · simp only [himm, if_false] at h ⊢
          by_cases hopen : (mapFind prs p.gitPushBookmark).isSome
          · simp only [hopen, if_true] at h ⊢
            cases h
            rfl
          · simp only [hopen, if_false] at h ⊢
            cases hpar : p.parents with
            | nil =>
              rw [hpar] at h
              cases h
            | cons q qs =>
              rw [hpar] at h
              dsimp only at h ⊢
              exact ih _ _ h

/-- C2 (amended): for every mutable revision with at least one parent, when
the specified rule list (with the empty-identity proviso) reaches a
terminating rule with base b while walking the first-parent chain, the base
resolver of the sync executor returns exactly b. -/
theorem c2_resolver_follows_rules (changes : List Change) (trunkName : String)
    (prs : List (String × PullRequest)) (pst : State) (fuel : Nat)
    (r : Change) (p : ParentRef) (rest : List ParentRef) (b : String)
    (hp : r.parents = p :: rest)
    (hr : claimRulesWalkAmended changes trunkName prs fuel p.changeID = .base b) :
    resolveBaseSync changes trunkName prs pst fuel r = some b := by
  unfold resolveBaseSync
  rw [hp]
  exact claimRules_amended_sim changes trunkName prs pst fuel p.changeID b hr

/-- The C2 counterexample revision with the empty change identity; it is
present in changesByID and has an open pull request. -/
def c2ChangeEmptyId : Change :=
  { id := "", commitID := "ce", immutable := false, gitPushBookmark := "push-eeee"
    description := "E", bookmarks := [], parents := [] }

/-- The C2 counterexample revision whose first parent link carries the empty
change identity. -/
def c2ChangeR : Change :=
  { id := "rrrrrrrrrrrr", commitID := "cr", immutable := false
    gitPushBookmark := "push-rrrr", description := "R", bookmarks := []
    parents := [⟨"", "ce"⟩] }

/-- The open PR on the branch of the empty-identity revision. -/
def c2PR : PullRequest :=
  { number := 3, title := "E", body := "", headRef := "push-eeee", headSHA := "ce"
    baseRef := "main", draft := false, closedAtSet := false, mergedAtZero := true
    state := "open" }

/-- C2 counterexample: the revision has a first parent, the first terminating
rule reached by the claimed rule list is rule 3 (the parent, listed under the
empty identity, has an open PR) with base "push-eeee", yet the resolver
returns the trunk name "main": the resolver does not return the base given by
the first terminating rule. -/
theorem c2_counterexample :
    c2ChangeR.parents = [⟨"", "ce"⟩]
    ∧ claimRulesWalk [c2ChangeEmptyId, c2ChangeR] "main" [("push-eeee", c2PR)] 2 ""
        = .base "push-eeee"
    ∧ resolveBaseSync [c2ChangeEmptyId, c2ChangeR] "main" [("push-eeee", c2PR)] ⟨1, []⟩ 2
        c2ChangeR = some "main"
    ∧ ("push-eeee" : String) ≠ "main" := by
  decide

/-- An immutable parent carrying the trunk bookmark, for the C2 witness. -/
def c2wParent : Change :=
  { id := "pppppppppppp", commitID := "cp", immutable := true, gitPushBookmark := ""
    description := "", bookmarks := [⟨"main"⟩], parents := [] }

/-- A mutable child of the immutable parent, for the C2 witness. -/
def c2wChild : Change :=
  { id := "cccccccccccc", commitID := "cc", immutable := false
    gitPushBookmark := "push-cccc", description := "C", bookmarks := []
    parents := [⟨"pppppppppppp", "cp"⟩] }

theorem c2_witness :
    resolveBaseSync [c2wParent, c2wChild] "main" [] ⟨1, []⟩ 2 c2wChild = some "main" :=
  c2_resolver_follows_rules [c2wParent, c2wChild] "main" [] ⟨1, []⟩ 2 c2wChild
    ⟨"pppppppppppp", "cp"⟩ [] "main" rfl (by decide)

/-! ## Claim C3: the push phase

The push loop walks all mutable revisions in base-to-tip order and aborts on
the first failure without any API call.  Contrary to the claim it does not
restrict itself to the revisions that need a sync: it pushes every mutable
revision, including ones the evaluator found up to date. -/

/-- When every push succeeds, the push loop visits the whole list in order. -/
theorem pushPhase_all_ok (f : String → Option String) (l : List Revision)
    (h : ∀ r ∈ l, f r.change.id = none) :
    pushPhase f l = (l.map (fun r => r.change.id), none) := by
  induction l with
  | nil => rfl
  | cons r rest ih =>
    have hr : f r.change.id = none := h r (List.mem_cons_self r rest)
    simp only [pushPhase]
    rw [hr, ih (fun x hx => h x (List.mem_cons_of_mem _ hx))]
    rfl

/-- When the pushes up to some revision succeed and that revision's push
fails, the loop stops right there: the attempts are the successful prefix
plus the failing push, and the wrapped error is returned. -/
theorem pushPhase_first_fail (f : String → Option String) (l1 : List Revision)
    (r : Revision) (l2 : List Revision) (e : String)
    (h1 : ∀ x ∈ l1, f x.change.id = none) (hr : f r.change.id = some e) :
    pushPhase f (l1 ++ r :: l2)
      = (l1.map (fun x => x.change.id) ++ [r.change.id],
         some ("push " ++ shortId r.change.id ++ ": " ++ e)) := by
  induction l1 with
  | nil =>
    rw [List.nil_append]
    simp only [pushPhase]
    rw [hr]
    rfl
  | cons a t ih =>
    have ha : f a.change.id = none := h1 a (List.mem_cons_self a t)
    rw [List.cons_append]
    simp only [pushPhase]
    rw [ha, ih (fun x hx => h1 x (List.mem_cons_of_mem _ hx))]
    rfl

/-- C3 (amended): the push phase of the Sync Executor performs its pushes
strictly sequentially in base-to-tip order (the reverse of display order),
one push per mutable revision — not only per revision that needs sync — and
aborts the whole operation at the first push failure, with no pull-request
create or update call performed. -/
theorem c3_push_phase (env : Env) (changes : List Change) (stack : Stack)
    (prs : List (String × PullRequest)) (pst : State) :
    ((∀ r ∈ stack.MutableRevisions, env.pushRes r.change.id = none) →
      (syncAllRevisions env changes stack prs pst).pushTrace
        = stack.MutableRevisions.reverse.map (fun r => r.change.id))
    ∧ (∀ l1 r l2 e, stack.MutableRevisions.reverse = l1 ++ r :: l2 →
        (∀ x ∈ l1, env.pushRes x.change.id = none) →
        env.pushRes r.change.id = some e →
        (syncAllRevisions env changes stack prs pst).pushTrace
            = l1.map (fun x => x.change.id) ++ [r.change.id]
          ∧ (syncAllRevisions env changes stack prs pst).apiOps = []
          ∧ (syncAllRevisions env changes stack prs pst).results = []
          ∧ (syncAllRevisions env changes stack prs pst).err.isSome) := by
  constructor
  · intro h
    by_cases hemp : stack.MutableRevisions.isEmpty
    · rw [List.isEmpty_iff] at hemp
      simp only [syncAllRevisions, hemp]
      rfl
    · have hrev : ∀ r ∈ stack.MutableRevisions.reverse, env.pushRes r.change.id = none := by
        intro r hr
        exact h r (List.mem_reverse.mp hr)
      simp only [syncAllRevisions, hemp]
      rw [pushPhase_all_ok env.pushRes _ hrev]
      rfl
  · intro l1 r l2 e hsplit h1 hr
    have hne : stack.MutableRevisions ≠ [] := by
      intro hc
      rw [hc] at hsplit
      exact List.cons_ne_nil r l2 (List.append_eq_nil.mp hsplit.symm).2
    have hemp : stack.MutableRevisions.isEmpty = false := by
      rw [List.isEmpty_eq_false_iff_exists_mem]
      rcases List.exists_mem_of_ne_nil _ hne with ⟨x, hx⟩
      exact ⟨x, hx⟩
    simp only [syncAllRevisions, hemp]
    rw [hsplit, pushPhase_first_fail env.pushRes l1 r l2 e h1 hr]
    exact ⟨rfl, rfl, rfl, rfl⟩

/-- The up-to-date revision of the C3 counterexample. -/
def c3ChangeA : Change :=
  { id := "aaaaaaaaaaaa", commitID := "ca", immutable := false
    gitPushBookmark := "push-aaaa", description := "A\nbody", bookmarks := []
    parents := [] }

/-- The PR matching c3ChangeA byte-exactly, so that revision needs no sync. -/
def c3PRA : PullRequest :=
  { number := 1, title := "A", body := "body", headRef := "push-aaaa", headSHA := "ca"
    baseRef := "main", draft := false, closedAtSet := false, mergedAtZero := true
    state := "open" }

/-- The revision that does need a sync (no PR exists for its branch). -/
def c3ChangeB : Change :=
  { id := "bbbbbbbbbbbb", commitID := "cb", immutable := false
    gitPushBookmark := "push-bbbb", description := "B", bookmarks := []
    parents := [⟨"aaaaaaaaaaaa", "ca"⟩] }

/-- An environment in which every push succeeds. -/
def c3Env : Env :=
  { fetchErr := none, changesResult := .ok [c3ChangeA, c3ChangeB], stateFile := .missing
    parse := fun _ => none, listPRs := fun _ => .notPushed, getPR := fun _ => .ok none
    pushRes := fun _ => none, updatePRRes := fun _ _ => none
    createPRRes := fun _ => .ok c3PRA, listComments := fun _ => .ok []
    updateCommentRes := fun _ _ => none, createCommentRes := fun _ _ => none
    saveErr := none }

/-- C3 counterexample: revision A needs no sync while revision B does, the
aggregate flag is true, and the executor pushes A anyway — refuting the
claim that one revision that needs sync is pushed per step. -/
theorem c3_counterexample :
    needsSyncChange [c3ChangeA, c3ChangeB] "main" [("push-aaaa", c3PRA)] 3 c3ChangeA = false
    ∧ needsSyncAny [c3ChangeA, c3ChangeB] "main" [("push-aaaa", c3PRA)] 3 = true
    ∧ "aaaaaaaaaaaa" ∈ (syncAllRevisions c3Env [c3ChangeA, c3ChangeB]
        (NewStack [c3ChangeA, c3ChangeB] "main" []) [("push-aaaa", c3PRA)]
        ⟨1, []⟩).pushTrace := by
  decide

/-- The C3 environment whose push of revision B fails. -/
def c3EnvFail : Env :=
  { c3Env with pushRes := fun id => if id = "bbbbbbbbbbbb" then some "remote rejected" else none }

theorem c3_witness :
    (syncAllRevisions c3Env [c3ChangeA, c3ChangeB]
        (NewStack [c3ChangeA, c3ChangeB] "main" []) [("push-aaaa", c3PRA)] ⟨1, []⟩).pushTrace
      = ["aaaaaaaaaaaa", "bbbbbbbbbbbb"]
    ∧ ((syncAllRevisions c3EnvFail [c3ChangeA, c3ChangeB]
          (NewStack [c3ChangeA, c3ChangeB] "main" []) [("push-aaaa", c3PRA)] ⟨1, []⟩).pushTrace
         = ["aaaaaaaaaaaa", "bbbbbbbbbbbb"]
       ∧ (syncAllRevisions c3EnvFail [c3ChangeA, c3ChangeB]
            (NewStack [c3ChangeA, c3ChangeB] "main" []) [("push-aaaa", c3PRA)] ⟨1, []⟩).apiOps = []
       ∧ (syncAllRevisions c3EnvFail [c3ChangeA, c3ChangeB]
            (NewStack [c3ChangeA, c3ChangeB] "main" []) [("push-aaaa", c3PRA)] ⟨1, []⟩).results = []
       ∧ (syncAllRevisions c3EnvFail [c3ChangeA, c3ChangeB]
            (NewStack [c3ChangeA, c3ChangeB] "main" [])
            [("push-aaaa", c3PRA)] ⟨1, []⟩).err.isSome) := by
  constructor
  · rw [(c3_push_phase c3Env [c3ChangeA, c3ChangeB]
      (NewStack [c3ChangeA, c3ChangeB] "main" []) [("push-aaaa", c3PRA)] ⟨1, []⟩).1
      (fun r _ => rfl)]
    decide
  · have h := (c3_push_phase c3EnvFail [c3ChangeA, c3ChangeB]
      (NewStack [c3ChangeA, c3ChangeB] "main" []) [("push-aaaa", c3PRA)] ⟨1, []⟩).2
      [NewRevision c3ChangeA] (NewRevision c3ChangeB) [] "remote rejected"
      (by decide) (fun x hx => by
        have : x = NewRevision c3ChangeA := List.mem_singleton.mp hx
        rw [this]
        decide) (by decide)
    refine ⟨?_, h.2.1, h.2.2.1, h.2.2.2⟩
    rw [h.1]
    decide

/-! ## Claim C4: API-phase failure independence and error surfacing -/

/-- Every API task records the identity of its own revision in its result,
whatever the call outcome. -/
theorem apiTask_changeID (env : Env) (changes : List Change) (trunkName : String)
    (prs : List (String × PullRequest)) (pst : State) (fuel : Nat) (c : Change) :
    (apiTask env changes trunkName prs pst fuel c).2.1.changeID = c.id := by
  unfold apiTask
  cases mapFind prs c.gitPushBookmark with
  | some pr => rfl
  | none =>
    dsimp only
    cases env.createPRRes _ with
    | error e => rfl
    | ok pr => rfl

/-- When every push succeeds, the executor outcome is the full API phase:
one task per mutable revision, no message-level error. -/
theorem syncAllRevisions_all_ok (env : Env) (changes : List Change) (stack : Stack)
    (prs : List (String × PullRequest)) (pst : State)
    (hrev : ∀ r ∈ stack.MutableRevisions, env.pushRes r.change.id = none) :
    syncAllRevisions env changes stack prs pst =
      { pushTrace := stack.MutableRevisions.reverse.map (fun r => r.change.id)
        apiOps := (stack.MutableRevisions.map (fun r =>
          apiTask env changes stack.trunkName prs pst (changes.length + 1) r.change)).map
          (fun t => t.1)
        results := (stack.MutableRevisions.map (fun r =>
          apiTask env changes stack.trunkName prs pst (changes.length + 1) r.change)).map
          (fun t => t.2.1)
        createdPRs := (stack.MutableRevisions.map (fun r =>
          apiTask env changes stack.trunkName prs pst (changes.length + 1) r.change)).filterMap
          (fun t => t.2.2)
        err := none } := by
  by_cases hemp : stack.MutableRevisions.isEmpty
  · rw [List.isEmpty_iff] at hemp
    simp only [syncAllRevisions, hemp]
    simp
  · simp only [syncAllRevisions, hemp]
    rw [pushPhase_all_ok env.pushRes _ (fun r hr => hrev r (List.mem_reverse.mp hr))]
    rfl

/-- C4: when all pushes succeed and some revision's API call fails, every
revision still gets exactly one API call and one result (one failure blocks
no other call), the message-level error stays empty (no task fails the
group), and the engine surfaces the first per-revision error and moves to
the error phase even though other updates may have succeeded. -/
theorem c4_api_phase_error_surfaced (env : Env) (changes : List Change) (stack : Stack)
    (prs : List (String × PullRequest)) (pst : State)
    (hpush : ∀ r ∈ stack.MutableRevisions, env.pushRes r.change.id = none)
    (hfail : ∃ r ∈ (syncAllRevisions env changes stack prs pst).results, r.err.isSome) :
    (syncAllRevisions env changes stack prs pst).results.map (fun r => r.changeID)
        = stack.MutableRevisions.map (fun r => r.change.id)
    ∧ (syncAllRevisions env changes stack prs pst).apiOps.length
        = stack.MutableRevisions.length
    ∧ (syncAllRevisions env changes stack prs pst).err = none
    ∧ ∃ r0, (syncAllRevisions env changes stack prs pst).results.find?
          (fun r => r.err.isSome) = some r0
        ∧ processSyncResults (syncAllRevisions env changes stack prs pst).results
          = (Phase.error, r0.err) := by
  have hout : (syncAllRevisions env changes stack prs pst).results.map (fun r => r.changeID)
        = stack.MutableRevisions.map (fun r => r.change.id)
      ∧ (syncAllRevisions env changes stack prs pst).apiOps.length
        = stack.MutableRevisions.length
      ∧ (syncAllRevisions env changes stack prs pst).err = none := by
    rw [syncAllRevisions_all_ok env changes stack prs pst hpush]
    refine ⟨?_, ?_, rfl⟩
    · rw [List.map_map, List.map_map]
      apply List.map_congr_left
      intro r _
      exact apiTask_changeID env changes stack.trunkName prs pst (changes.length + 1) r.change
    · rw [List.map_map, List.length_map]
  refine ⟨hout.1, hout.2.1, hout.2.2, ?_⟩
  have hsome : ((syncAllRevisions env changes stack prs pst).results.find?
      (fun r => r.err.isSome)).isSome := by
    rw [List.find?_isSome]
    obtain ⟨r, hr, he⟩ := hfail
    exact ⟨r, hr, he⟩
  obtain ⟨r0, hr0⟩ := Option.isSome_iff_exists.mp hsome
  refine ⟨r0, hr0, ?_⟩
  unfold processSyncResults
  rw [hr0]

/-- The C4 witness environment: the update of PR 1 fails while that of PR 2
succeeds. -/
def c4Env : Env :=
  { c3Env with updatePRRes := fun n _ => if n = 1 then some "api down" else none }

/-- The PR map of the C4 witness: both branches have existing PRs. -/
def c4PRs : List (String × PullRequest) :=
  [("push-aaaa", c3PRA),
   ("push-bbbb", { c3PRA with number := 2, headRef := "push-bbbb" })]

theorem c4_witness :
    (syncAllRevisions c4Env [c3ChangeA, c3ChangeB]
        (NewStack [c3ChangeA, c3ChangeB] "main" []) c4PRs ⟨1, []⟩).results.map
        (fun r => r.changeID)
      = ["bbbbbbbbbbbb", "aaaaaaaaaaaa"]
    ∧ (processSyncResults (syncAllRevisions c4Env [c3ChangeA, c3ChangeB]
        (NewStack [c3ChangeA, c3ChangeB] "main" []) c4PRs ⟨1, []⟩).results).1
      = Phase.error := by
  have h := c4_api_phase_error_surfaced c4Env [c3ChangeA, c3ChangeB]
    (NewStack [c3ChangeA, c3ChangeB] "main" []) c4PRs ⟨1, []⟩
    (fun r _ => rfl) (by decide)
  constructor
  · rw [h.1]
    decide
  · obtain ⟨r0, _, hp⟩ := h.2.2.2
    rw [hp]

/-! ## Claim C6: two open pull requests on one branch abort the run -/

/-- Whenever some branch in the list reports more than one open pull request
(after filtering closed PRs and foreign heads), the branch lookup returns an
error, regardless of the other branches. -/
theorem getPRsForBranches_ambiguous_error (listPRs : String → ListPRsOutcome)
    (b : String) (prs : List PullRequest)
    (hlist : listPRs b = .ok prs)
    (h2 : 2 ≤ (prs.filter (fun pr => !pr.closedAtSet && pr.headRef == b)).length) :
    ∀ branches acc, b ∈ branches →
      ∃ e, getPullRequestsForBranchesGo listPRs branches acc = .error e := by
  intro branches
  induction branches with
  | nil => intro acc hb; cases hb
  | cons b0 rest ih =>
    intro acc hb
    unfold getPullRequestsForBranchesGo
    cases hl0 : listPRs b0 with
    | err e => exact ⟨e, rfl⟩
    | notPushed =>
      rcases List.mem_cons.mp hb with hb0 | hbr
      · subst hb0
        rw [hlist] at hl0
        cases hl0
      · exact ih acc hbr
    | ok prs0 =>
      rcases List.mem_cons.mp hb with hb0 | hbr
      · subst hb0
        rw [hlist] at hl0
        cases hl0
        cases hop : prs.filter (fun pr => !pr.closedAtSet && pr.headRef == b) with
        | nil =>
          rw [hop] at h2
          simp at h2
        | cons p0 ps =>
          cases ps with
          | nil =>
            rw [hop] at h2
            simp at h2
          | cons p1 ps' =>
            simp only [hop]
            exact ⟨_, rfl⟩
      · cases hop : prs0.filter (fun pr => !pr.closedAtSet && pr.headRef == b0) with
        | nil =>
          simp only [hop]
          exact ih acc hbr
        | cons p0 ps =>
          cases ps with
          | nil =>
            simp only [hop]
            exact ih (mapSet acc b0 p0) hbr
          | cons p1 ps' =>
            simp only [hop]
            exact ⟨_, rfl⟩

/-- C6: when the remote lookup finds more than one open pull request for a
branch of the current batch, the lookup returns an error, the run ends in
the error phase, and no version-control push is ever performed. -/
theorem c6_ambiguous_remote_aborts (env : Env) (cs : List Change) (b : String)
    (prs : List PullRequest)
    (hcs : env.changesResult = .ok cs)
    (hb : b ∈ branchesOf cs)
    (hlist : env.listPRs b = .ok prs)
    (h2 : 2 ≤ (prs.filter (fun pr => !pr.closedAtSet && pr.headRef == b)).length) :
    (∃ e, getPullRequestsForBranches env.listPRs (branchesOf cs) = .error e)
    ∧ (runSubmit env).finalPhase = Phase.error
    ∧ (runSubmit env).pushTrace = [] := by
  have hlk : ∃ e, getPullRequestsForBranches env.listPRs (branchesOf cs) = .error e :=
    getPRsForBranches_ambiguous_error env.listPRs b prs hlist h2 (branchesOf cs) [] hb
  refine ⟨hlk, ?_⟩
  have hload : ∃ e, loadRevisionsAndPRs env = .error e := by
    unfold loadRevisionsAndPRs
    cases env.fetchErr with
    | some e => exact ⟨_, rfl⟩
    | none =>
      rw [hcs]
      cases stateLoad env.parse env.stateFile with
      | error e => exact ⟨_, rfl⟩
      | ok raw =>
        have hne : (mutableDescribed cs).isEmpty = false := by
          obtain ⟨c, hc, _⟩ := List.mem_map.mp hb
          rw [List.isEmpty_eq_false_iff_exists_mem]
          exact ⟨c, hc⟩
        obtain ⟨e, he⟩ := hlk
        simp only [hne, he]
        exact ⟨e, rfl⟩
  obtain ⟨e, he⟩ := hload
  unfold runSubmit
  rw [he]
  exact ⟨rfl, rfl⟩

/-- The C6 witness environment: the branch of revision A carries two open
pull requests. -/
def c6Env : Env :=
  { c3Env with
    listPRs := fun br =>
      if br = "push-aaaa" then
        .ok [c3PRA, { c3PRA with number := 8 }]
      else .notPushed }

theorem c6_witness :
    (∃ e, getPullRequestsForBranches c6Env.listPRs
        (branchesOf [c3ChangeA, c3ChangeB]) = .error e)
    ∧ (runSubmit c6Env).finalPhase = Phase.error
    ∧ (runSubmit c6Env).pushTrace = [] :=
  c6_ambiguous_remote_aborts c6Env [c3ChangeA, c3ChangeB] "push-aaaa"
    [c3PRA, { c3PRA with number := 8 }] rfl (by decide) (by decide) (by decide)

/-! ## Claim C5: termination and non-emptiness of the resolved base

Termination holds for every single first-parent chain rooted at an immutable
revision; the resolved name, however, can be empty when the chain carries
empty bookmark names (the trunk name is then the empty first bookmark of the
root), so the non-emptiness clause of the claim needs the graph names to be
non-empty. -/

/-- The changesByID index finds each change of a duplicate-free batch. -/
theorem changesById_find (cs : List Change) (hnd : (cs.map (fun c => c.id)).Nodup)
    {c : Change} (hc : c ∈ cs) : mapFind (changesById cs) c.id = some c := by
  apply mapFind_of_nodup_mem
  · unfold changesById
    rw [List.map_map]
    exact hnd
  · unfold changesById
    exact List.mem_map.mpr ⟨c, hc, rfl⟩

/-- Any base the executor walk returns is the trunk name, the first bookmark
name of a batch change, or the branch name of a batch change. -/
theorem resolveBaseWalkSync_name (cs : List Change) (trunk : String)
    (prs : List (String × PullRequest)) (pst : State) :
    ∀ fuel pid b, resolveBaseWalkSync cs trunk prs pst fuel pid = some b →
      b = trunk
      ∨ (∃ ch ∈ cs, ∃ bm bs, ch.bookmarks = bm :: bs ∧ b = bm.name)
      ∨ (∃ ch ∈ cs, b = ch.gitPushBookmark) := by
  intro fuel
  induction fuel with
  | zero =>
    intro pid b h
    simp [resolveBaseWalkSync] at h
  | succ n ih =>
    intro pid b h
    unfold resolveBaseWalkSync at h
    by_cases hpid : pid = ""
    · rw [if_pos hpid] at h
      cases h
      left
      rfl
    · rw [if_neg hpid] at h
      cases hfind : mapFind (changesById cs) pid with
      | none =>
        rw [hfind] at h
        simp only [ite_self] at h
        cases h
        left
        rfl
      | some p =>
        rw [hfind] at h
        have hpmem : p ∈ cs := by
          have hm := mapFind_mem hfind
          unfold changesById at hm
          obtain ⟨c, hc, hce⟩ := List.mem_map.mp hm
          injection hce with h1 h2
          subst h2
          exact hc
        by_cases himm : p.immutable = true
        · simp only [himm, if_true] at h
          cases hbm : p.bookmarks with
          | nil =>
            rw [hbm] at h
            cases h
            left
            rfl
          | cons bm bs =>
            rw [hbm] at h
            cases h
            right
            left
            exact ⟨p, hpmem, bm, bs, hbm, rfl⟩
        · simp only [himm, if_false] at h
          by_cases hopen : (mapFind prs p.gitPushBookmark).isSome
          · simp only [hopen, if_true] at h
            cases h
            right
            right
            exact ⟨p, hpmem, rfl⟩
          · simp only [hopen, if_false] at h
            cases hpar : p.parents with
            | nil =>
              rw [hpar] at h
              cases h
              left
              rfl
            | cons q qs =>
              rw [hpar] at h
              exact ih _ _ h

/-- The executor walk is fuel-monotone: a result obtained with some fuel is
kept with any larger fuel. -/
theorem resolveBaseWalkSync_mono (cs : List Change) (trunk : String)
    (prs : List (String × PullRequest)) (pst : State) :
    ∀ n pid b, resolveBaseWalkSync cs trunk prs pst n pid = some b →
      ∀ m, n ≤ m → resolveBaseWalkSync cs trunk prs pst m pid = some b := by
  intro n
  induction n with
  | zero =>
    intro pid b h
    simp [resolveBaseWalkSync] at h
  | succ n ih =>
    intro pid b h m hm
    cases m with
    | zero => exact absurd hm (by omega)
    | succ m' =>
      unfold resolveBaseWalkSync at h ⊢
      by_cases hpid : pid = ""
      · rw [if_pos hpid] at h ⊢
        exact h
      · rw [if_neg hpid] at h ⊢
        cases hfind : mapFind (changesById cs) pid with
        | none =>
          rw [hfind] at h
          exact h
        | some p =>
          rw [hfind] at h
          by_cases himm : p.immutable = true
          · simp only [himm, if_true] at h ⊢
            exact h
          · simp only [himm, if_false] at h ⊢
            by_cases hopen : (mapFind prs p.gitPushBookmark).isSome
            · simp only [hopen, if_true] at h ⊢
              exact h
            · simp only [hopen, if_false] at h ⊢
              cases hpar : p.parents with
              | nil =>
                rw [hpar] at h
                exact h
              | cons q qs =>
                rw [hpar] at h
                exact ih q.changeID b h m' (Nat.succ_le_succ_iff.mp hm)

/-- Along a first-parent chain rooted at an immutable revision, the walk
started at the revision at index j terminates within j + 1 steps. -/
theorem chain_walk (cs : List Change) (trunk : String)
    (prs : List (String × PullRequest)) (pst : State)
    (hnd : (cs.map (fun c => c.id)).Nodup)
    (h0 : ∀ (h : 0 < cs.length), (cs.get ⟨0, h⟩).immutable = true)
    (hlink : ∀ j (hj : j + 1 < cs.length),
      (cs.get ⟨j + 1, hj⟩).immutable = false
      ∧ ((cs.get ⟨j + 1, hj⟩).parents.head?.map (fun p => p.changeID))
          = some ((cs.get ⟨j, Nat.lt_of_succ_lt hj⟩).id)) :
    ∀ j (hj : j < cs.length), ∃ b,
      resolveBaseWalkSync cs trunk prs pst (j + 1) (cs.get ⟨j, hj⟩).id = some b := by
  intro j
  induction j with
  | zero =>
    intro hj
    by_cases hpid : (cs.get ⟨0, hj⟩).id = ""
    · exact ⟨trunk, by unfold resolveBaseWalkSync; rw [if_pos hpid]⟩
    · have hfind := changesById_find cs hnd (cs.get_mem 0 hj)
      refine ⟨(match (cs.get ⟨0, hj⟩).bookmarks with
               | [] => trunk
               | b :: _ => b.name), ?_⟩
      unfold resolveBaseWalkSync
      rw [if_neg hpid, hfind]
      simp only [h0 hj, if_true]
  | succ n ih =>
    intro hj
    have hmut := (hlink n hj).1
    have hpar := (hlink n hj).2
    by_cases hpid : (cs.get ⟨n + 1, hj⟩).id = ""
    · exact ⟨trunk, by unfold resolveBaseWalkSync; rw [if_pos hpid]⟩
    · have hfind := changesById_find cs hnd (cs.get_mem (n + 1) hj)
      by_cases hopen : (mapFind prs (cs.get ⟨n + 1, hj⟩).gitPushBookmark).isSome
      · refine ⟨(cs.get ⟨n + 1, hj⟩).gitPushBookmark, ?_⟩
        unfold resolveBaseWalkSync
        rw [if_neg hpid, hfind]
        simp only [hmut, if_false, hopen, if_true]
        rfl
      · cases hps : (cs.get ⟨n + 1, hj⟩).parents with
        | nil =>
          rw [hps] at hpar
          cases hpar
        | cons q qs =>
          rw [hps] at hpar
          simp only [List.head?_cons, Option.map_some', Option.some.injEq] at hpar
          obtain ⟨b, hb⟩ := ih (Nat.lt_of_succ_lt hj)
          refine ⟨b, ?_⟩
          unfold resolveBaseWalkSync
          rw [if_neg hpid, hfind]
          simp only [hmut, if_false, hopen, hps]
          rw [hpar]
          exact hb

/-- The computed trunk name is never empty when all bookmark names in the
batch are non-empty (the default is "main"). -/
theorem computeTrunkName_ne_empty (cs : List Change)
    (hnames : ∀ ch ∈ cs, ∀ bm ∈ ch.bookmarks, bm.name ≠ "") :
    computeTrunkName cs ≠ "" := by
  unfold computeTrunkName
  cases cs with
  | nil => simp
  | cons c rest =>
    by_cases himm : c.immutable = true
    · simp only [himm, if_true]
      cases hbm : c.bookmarks with
      | nil => simp
      | cons bm bs =>
        exact hnames c (List.mem_cons_self c rest) bm (hbm ▸ List.mem_cons_self bm bs)
    · simp only [himm, if_false]
      simp

/-- C5 (amended): for any finite revision graph forming a single
first-parent chain rooted at an immutable revision, the base resolver
terminates — with any fuel at least the number of revisions the walk yields
one fixed base — and the returned base name is non-empty provided every
bookmark name and branch name in the graph is non-empty. -/
theorem c5_resolver_terminates (cs : List Change)
    (prs : List (String × PullRequest)) (pst : State)
    (hnd : (cs.map (fun c => c.id)).Nodup)
    (h0 : ∀ (h : 0 < cs.length), (cs.get ⟨0, h⟩).immutable = true)
    (hlink : ∀ j (hj : j + 1 < cs.length),
      (cs.get ⟨j + 1, hj⟩).immutable = false
      ∧ ((cs.get ⟨j + 1, hj⟩).parents.head?.map (fun p => p.changeID))
          = some ((cs.get ⟨j, Nat.lt_of_succ_lt hj⟩).id))
    (c : Change) (hc : c ∈ cs) (hmut : c.immutable = false) :
    ∃ b, (∀ m, cs.length ≤ m →
        resolveBaseSync cs (computeTrunkName cs) prs pst m c = some b)
      ∧ ((∀ ch ∈ cs, ch.gitPushBookmark ≠ "" ∧ ∀ bm ∈ ch.bookmarks, bm.name ≠ "") →
          b ≠ "") := by
  obtain ⟨⟨j, hj⟩, hget⟩ := List.mem_iff_get.mp hc
  cases j with
  | zero =>
    have himm : c.immutable = true := by
      rw [← hget]
      exact h0 hj
    rw [hmut] at himm
    cases himm
  | succ n =>
    have hpar := (hlink n hj).2
    rw [hget] at hpar
    cases hps : c.parents with
    | nil =>
      rw [hps] at hpar
      cases hpar
    | cons q qs =>
      rw [hps] at hpar
      simp only [List.head?_cons, Option.map_some', Option.some.injEq] at hpar
      obtain ⟨b, hb⟩ := chain_walk cs (computeTrunkName cs) prs pst hnd h0 hlink n
        (Nat.lt_of_succ_lt hj)
      refine ⟨b, ?_, ?_⟩
      · intro m hm
        unfold resolveBaseSync
        rw [hps]
        show resolveBaseWalkSync cs (computeTrunkName cs) prs pst m q.changeID = some b
        rw [hpar]
        exact resolveBaseWalkSync_mono cs (computeTrunkName cs) prs pst (n + 1) _ b hb m
          (by omega)
      · intro hnames
        rcases resolveBaseWalkSync_name cs (computeTrunkName cs) prs pst (n + 1) _ b hb with
          hbt | ⟨ch, hch, bm, bs, hbm, hbn⟩ | ⟨ch, hch, hbr⟩
        · rw [hbt]
          exact computeTrunkName_ne_empty cs (fun ch hch => (hnames ch hch).2)
        · rw [hbn]
          exact (hnames ch hch).2 bm (hbm ▸ List.mem_cons_self bm bs)
        · rw [hbr]
          exact (hnames ch hch).1

/-- The immutable root of the C5 counterexample, carrying a bookmark whose
name is the empty string. -/
def c5Root : Change :=
  { id := "root00000000", commitID := "c0", immutable := true, gitPushBookmark := ""
    description := "", bookmarks := [⟨""⟩], parents := [] }

/-- The single mutable revision of the C5 counterexample chain. -/
def c5Kid : Change :=
  { id := "kid000000000", commitID := "c1", immutable := false
    gitPushBookmark := "push-kid", description := "K", bookmarks := []
    parents := [⟨"root00000000", "c0"⟩] }

/-- C5 counterexample: a two-revision single first-parent chain rooted at an
immutable revision on which the resolver terminates but returns the empty
base name (the empty bookmark name of the root becomes the trunk name),
refuting the claimed non-emptiness. -/
theorem c5_counterexample :
    (([c5Root, c5Kid] : List Change).map (fun c => c.id)).Nodup
    ∧ (∀ (h : 0 < ([c5Root, c5Kid] : List Change).length),
        (([c5Root, c5Kid] : List Change).get ⟨0, h⟩).immutable = true)
    ∧ (∀ j (hj : j + 1 < ([c5Root, c5Kid] : List Change).length),
        (([c5Root, c5Kid] : List Change).get ⟨j + 1, hj⟩).immutable = false
        ∧ ((([c5Root, c5Kid] : List Change).get ⟨j + 1, hj⟩).parents.head?.map
            (fun p => p.changeID))
          = some ((([c5Root, c5Kid] : List Change).get ⟨j, Nat.lt_of_succ_lt hj⟩).id))
    ∧ resolveBaseSync [c5Root, c5Kid] (computeTrunkName [c5Root, c5Kid]) [] ⟨1, []⟩ 2 c5Kid
        = some "" := by
  refine ⟨by decide, fun h => rfl, ?_, by decide⟩
  intro j hj
  cases j with
  | zero => exact ⟨rfl, rfl⟩
  | succ n => exact absurd (show n + 1 + 1 < 2 from hj) (by omega)

/-- The well-named root of the C5 witness chain. -/
def c5wRoot : Change :=
  { id := "root00000000", commitID := "c0", immutable := true
    gitPushBookmark := "trunkpush", description := "", bookmarks := [⟨"main"⟩]
    parents := [] }

/-- The mutable revision of the C5 witness chain. -/
def c5wKid : Change :=
  { id := "kid000000000", commitID := "c1", immutable := false
    gitPushBookmark := "push-kid", description := "K", bookmarks := []
    parents := [⟨"root00000000", "c0"⟩] }

theorem c5_witness :
    ∃ b, (∀ m, ([c5wRoot, c5wKid] : List Change).length ≤ m →
        resolveBaseSync [c5wRoot, c5wKid] (computeTrunkName [c5wRoot, c5wKid]) [] ⟨1, []⟩ m
          c5wKid = some b)
      ∧ ((∀ ch ∈ ([c5wRoot, c5wKid] : List Change),
            ch.gitPushBookmark ≠ "" ∧ ∀ bm ∈ ch.bookmarks, bm.name ≠ "") → b ≠ "") :=
  c5_resolver_terminates [c5wRoot, c5wKid] [] ⟨1, []⟩ (by decide) (fun h => rfl)
    (by
      intro j hj
      cases j with
      | zero => exact ⟨rfl, rfl⟩
      | succ n => exact absurd (show n + 1 + 1 < 2 from hj) (by omega))
    c5wKid (by decide) rfl

/-! ## Claim C9: the stack comment is deterministic and idempotent -/

/-- The projection of the displayed stack onto PR numbers and merge states:
one row per displayed PR, in display order. -/
def stackRows (revisions : List Revision)
    (existingPRs : List (String × PullRequest)) : List (Nat × Bool) :=
  revisions.filterMap (fun r =>
    if r.isImmutable then none
    else if r.isMergedPR then some (r.prNumber, true)
    else (mapFind existingPRs r.change.gitPushBookmark).map (fun pr => (pr.number, false)))

/-- The stack-comment body as a function of the row projection alone. -/
def renderStackComment (rows : List (Nat × Bool)) (curNumber : Nat) : String :=
  stackMarker ++ "\n" ++ "**Pull Request Stack**\n\n"
    ++ rows.foldl (fun s row =>
        if row.2 then s ++ "- #" ++ natStr row.1 ++ " (merged)\n"
        else s ++ "- #" ++ natStr row.1
          ++ (if curNumber = row.1 then " ←" else "") ++ "\n") ""
    ++ "\n---\n" ++ "*Stack managed with [jj-github](https://github.com/cbrewster/jj-github)*"

/-- The row loops of the generated body and of its projection rendering agree
from any accumulator. -/
theorem buildRows_eq (prs : List (String × PullRequest)) (cur : Nat) :
    ∀ (revs : List Revision) (s : String),
      revs.foldl (fun s r =>
        if r.isImmutable then s
        else if r.isMergedPR then
          s ++ "- #" ++ natStr r.prNumber ++ " (merged)\n"
        else
          match mapFind prs r.change.gitPushBookmark with
          | none => s
          | some prr =>
            s ++ "- #" ++ natStr prr.number
              ++ (if cur = prr.number then " ←" else "") ++ "\n") s
      = (stackRows revs prs).foldl (fun s row =>
          if row.2 then s ++ "- #" ++ natStr row.1 ++ " (merged)\n"
          else s ++ "- #" ++ natStr row.1
            ++ (if cur = row.1 then " ←" else "") ++ "\n") s := by
  intro revs
  induction revs with
  | nil => intro s; rfl
  | cons r rest ih =>
    intro s
    rw [List.foldl_cons]
    unfold stackRows
    rw [List.filterMap_cons]
    by_cases himm : r.isImmutable = true
    · simp only [himm, if_true]
      exact ih s
    · by_cases hmg : r.isMergedPR = true
      · simp only [himm, if_false, hmg, if_true]
        exact ih _
      · simp only [himm, if_false, hmg]
        cases hpr : mapFind prs r.change.gitPushBookmark with
        | none =>
          simp only [Option.map_none']
          exact ih s
        | some prr =>
          simp only [Option.map_some']
          exact ih _

/-- C9 part (a) as a standalone equation: the generated body factors through
the PR-number-and-merge-state projection. -/
theorem buildStackComment_eq_render (revs : List Revision)
    (prs : List (String × PullRequest)) (cur : Nat) :
    buildStackComment revs prs cur = renderStackComment (stackRows revs prs) cur := by
  unfold buildStackComment renderStackComment
  rw [buildRows_eq prs cur revs ""]

/-- The PR a comment write targets. -/
def CommentOp.target : CommentOp → Nat
  | .update p _ _ => p
  | .create p _ => p

/-- The upsert loop never writes to a PR whose existing marker comment body
equals the regenerated body for that PR. -/
theorem commentLoop_no_touch (env : Env) (allRevs : List Revision)
    (prs : List (String × PullRequest)) (sc : List (Nat × IssueComment))
    (p : Nat) (c : IssueComment)
    (hc : mapFind sc p = some c)
    (hbody : c.body = buildStackComment allRevs prs p) :
    ∀ revs op, op ∈ (commentLoop env allRevs prs sc revs).1 → CommentOp.target op ≠ p := by
  intro revs
  induction revs with
  | nil => intro op hop; cases hop
  | cons r rest ih =>
    intro op hop
    unfold commentLoop at hop
    by_cases hskip : (r.isImmutable || r.isMergedPR) = true
    · rw [if_pos hskip] at hop
      exact ih op hop
    · rw [if_neg hskip] at hop
      cases hpr : mapFind prs r.change.gitPushBookmark with
      | none =>
        rw [hpr] at hop
        exact ih op hop
      | some pr =>
        rw [hpr] at hop
        dsimp only at hop
        cases hsc : mapFind sc pr.number with
        | some existing =>
          rw [hsc] at hop
          by_cases heq : existing.body = buildStackComment allRevs prs pr.number
          · simp only [heq, if_true] at hop
            exact ih op hop
          · have hne : pr.number ≠ p := by
              intro hpe
              apply heq
              have hec : existing = c := by
                rw [hpe] at hsc
                rw [hc] at hsc
                injection hsc with h
                exact h.symm
              rw [hec, hbody, hpe]
            simp only [heq, if_false] at hop
            cases hup : env.updateCommentRes existing.id
                (buildStackComment allRevs prs pr.number) with
            | some e =>
              rw [hup] at hop
              rw [List.mem_singleton] at hop
              subst hop
              exact hne
            | none =>
              rw [hup] at hop
              rcases List.mem_cons.mp hop with hop1 | hop2
              · subst hop1
                exact hne
              · exact ih op hop2
        | none =>
          rw [hsc] at hop
          have hne : pr.number ≠ p := by
            intro hpe
            rw [hpe] at hsc
            rw [hc] at hsc
            cases hsc
          cases hcr : env.createCommentRes pr.number
              (buildStackComment allRevs prs pr.number) with
          | some e =>
            rw [hcr] at hop
            rw [List.mem_singleton] at hop
            subst hop
            exact hne
          | none =>
            rw [hcr] at hop
            rcases List.mem_cons.mp hop with hop1 | hop2
            · subst hop1
              exact hne
            · exact ih op hop2

/-- When every displayed PR already carries a marker comment with exactly the
regenerated body, the upsert loop performs no write at all. -/
theorem commentLoop_all_match (env : Env) (allRevs : List Revision)
    (prs : List (String × PullRequest)) (sc : List (Nat × IssueComment)) :
    ∀ revs, (∀ r ∈ revs, r.isImmutable = false → r.isMergedPR = false →
        ∀ pr, mapFind prs r.change.gitPushBookmark = some pr →
          ∃ c, mapFind sc pr.number = some c
            ∧ c.body = buildStackComment allRevs prs pr.number) →
      commentLoop env allRevs prs sc revs = ([], none) := by
  intro revs
  induction revs with
  | nil => intro _; rfl
  | cons r rest ih =>
    intro h
    unfold commentLoop
    by_cases hskip : (r.isImmutable || r.isMergedPR) = true
    · rw [if_pos hskip]
      exact ih (fun x hx => h x (List.mem_cons_of_mem _ hx))
    · rw [if_neg hskip]
      simp only [Bool.or_eq_true, not_or, Bool.not_eq_true] at hskip
      cases hpr : mapFind prs r.change.gitPushBookmark with
      | none =>
        exact ih (fun x hx => h x (List.mem_cons_of_mem _ hx))
      | some pr =>
        obtain ⟨c, hsc, hcb⟩ :=
          h r (List.mem_cons_self r rest) hskip.1 hskip.2 pr hpr
        dsimp only
        rw [hsc]
        dsimp only
        rw [if_pos hcb]
        exact ih (fun x hx => h x (List.mem_cons_of_mem _ hx))

/-- With the marker comments fetched, the writes of the comment phase are
exactly those of the upsert loop (the trailing state save adds none). -/
theorem updateAllComments_fst (env : Env) (stack : Stack)
    (prs : List (String × PullRequest)) (sc : List (Nat × IssueComment))
    (hok : getPRCommentsContaining env.listComments
      (prs.map (fun kv => kv.2.number)) stackMarker = .ok sc) :
    (updateAllComments env stack prs).1
      = (commentLoop env stack.revisions prs sc stack.revisions).1 := by
  unfold updateAllComments
  rw [hok]
  dsimp only
  cases (commentLoop env stack.revisions prs sc stack.revisions).2 with
  | some e => rfl
  | none =>
    cases env.saveErr with
    | some e => rfl
    | none => rfl

/-- C9: the generated stack-comment body is a deterministic function of the
displayed PR numbers and merge states (it factors through that projection),
the synchronizer performs no write for a pull request whose existing marker
comment is byte-identical to the regenerated body, and when this holds for
every displayed pull request the whole run performs zero comment writes. -/
theorem c9_comment_idempotent (env : Env) (stack : Stack)
    (prs : List (String × PullRequest)) :
    (∀ (revs : List Revision) (cur : Nat),
        buildStackComment revs prs cur = renderStackComment (stackRows revs prs) cur)
    ∧ (∀ sc, getPRCommentsContaining env.listComments
          (prs.map (fun kv => kv.2.number)) stackMarker = .ok sc →
        ∀ p c, mapFind sc p = some c →
          c.body = buildStackComment stack.revisions prs p →
          ∀ op ∈ (updateAllComments env stack prs).1, CommentOp.target op ≠ p)
    ∧ (∀ sc, getPRCommentsContaining env.listComments
          (prs.map (fun kv => kv.2.number)) stackMarker = .ok sc →
        (∀ r ∈ stack.revisions, r.isImmutable = false → r.isMergedPR = false →
          ∀ pr, mapFind prs r.change.gitPushBookmark = some pr →
            ∃ c, mapFind sc pr.number = some c
              ∧ c.body = buildStackComment stack.revisions prs pr.number) →
        (updateAllComments env stack prs).1 = []) := by
  refine ⟨fun revs cur => buildStackComment_eq_render revs prs cur, ?_, ?_⟩
  · intro sc hok p c hsc hcb op hop
    rw [updateAllComments_fst env stack prs sc hok] at hop
    exact commentLoop_no_touch env stack.revisions prs sc p c hsc hcb stack.revisions op hop
  · intro sc hok hall
    rw [updateAllComments_fst env stack prs sc hok,
      commentLoop_all_match env stack.revisions prs sc stack.revisions hall]

/-- The body the C9 witness regenerates for its single PR. -/
def c9Body : String :=
  buildStackComment (NewStack [c3ChangeA] "main" []).revisions [("push-aaaa", c3PRA)] 1

/-- The C9 witness environment: PR 1 already carries a marker comment whose
body equals the regenerated body. -/
def c9Env : Env :=
  { c3Env with listComments := fun _ => .ok [⟨77, c9Body⟩] }

theorem c9_witness :
    (updateAllComments c9Env (NewStack [c3ChangeA] "main" []) [("push-aaaa", c3PRA)]).1
      = [] := by
  apply (c9_comment_idempotent c9Env (NewStack [c3ChangeA] "main" [])
    [("push-aaaa", c3PRA)]).2.2 [(1, ⟨77, c9Body⟩)] rfl
  intro r hr h1 h2 pr hpr
  cases hr with
  | head =>
    injection hpr with hpr1
    subst hpr1
    exact ⟨⟨77, c9Body⟩, rfl, rfl⟩
  | tail _ hr2 =>
    cases hr2 with
    | head => exact absurd h1 (by decide)
    | tail _ h3 => cases h3

/-! ## Claim C10: only the last marker comment is looked up and updated -/

/-- The per-PR lookup result of GetPRCommentsContaining: for every queried
PR (the numbers being pairwise distinct, as distinct open PRs have distinct
numbers), the recorded comment is the last marker-containing comment in
listing order, and unqueried keys are untouched. -/
theorem getPRComments_find (listComments : Nat → Except String (List IssueComment))
    (contents : String) :
    ∀ (prsN : List Nat), prsN.Nodup → ∀ (acc sc : List (Nat × IssueComment)),
      getPRCommentsContainingGo listComments contents prsN acc = .ok sc →
      ∀ p, (p ∉ prsN → mapFind sc p = mapFind acc p)
        ∧ (p ∈ prsN → mapFind acc p = none →
            ∃ l, listComments p = .ok l ∧
              mapFind sc p = (l.filter (fun c => containsSub c.body contents)).getLast?) := by
  intro prsN
  induction prsN with
  | nil =>
    intro _ acc sc h p
    injection h with h
    subst h
    exact ⟨fun _ => rfl, fun hmem _ => absurd hmem (List.not_mem_nil p)⟩
  | cons p0 rest ih =>
    intro hnd acc sc h p
    have hp0 : p0 ∉ rest := (List.nodup_cons.mp hnd).1
    have hndr : rest.Nodup := (List.nodup_cons.mp hnd).2
    unfold getPRCommentsContainingGo at h
    cases hl : listComments p0 with
    | error e =>
      rw [hl] at h
      cases h
    | ok l =>
      rw [hl] at h
      dsimp only at h
      cases hk : (l.filter (fun c => containsSub c.body contents)).getLast? with
      | none =>
        rw [hk] at h
        constructor
        · intro hnp
          exact (ih hndr acc sc h p).1 (fun hx => hnp (List.mem_cons_of_mem _ hx))
        · intro hmem hacc
          rcases List.mem_cons.mp hmem with hp0e | hpr
          · subst hp0e
            refine ⟨l, hl, ?_⟩
            rw [(ih hndr acc sc h p).1 hp0, hacc, hk]
          · exact (ih hndr acc sc h p).2 hpr hacc
      | some c0 =>
        rw [hk] at h
        constructor
        · intro hnp
          have hne : p0 ≠ p := fun hc => hnp (hc ▸ List.mem_cons_self p0 rest)
          rw [(ih hndr _ sc h p).1 (fun hx => hnp (List.mem_cons_of_mem _ hx)),
            mapFind_mapSet_other acc p0 p c0 hne]
        · intro hmem hacc
          rcases List.mem_cons.mp hmem with hp0e | hpr
          · subst hp0e
            refine ⟨l, hl, ?_⟩
            rw [(ih hndr _ sc h p).1 hp0, mapFind_mapSet_self, hk]
          · have hne : p0 ≠ p := fun hc => hp0 (hc ▸ hpr)
            exact (ih hndr _ sc h p).2 hpr
              (by rw [mapFind_mapSet_other acc p0 p c0 hne]; exact hacc)

/-- Every update write of the upsert loop uses the comment identifier the
marker lookup recorded for the target PR. -/
theorem commentLoop_update_id (env : Env) (allRevs : List Revision)
    (prs : List (String × PullRequest)) (sc : List (Nat × IssueComment)) :
    ∀ revs p cid body, CommentOp.update p cid body ∈ (commentLoop env allRevs prs sc revs).1 →
      ∃ c, mapFind sc p = some c ∧ cid = c.id := by
  intro revs
  induction revs with
  | nil =>
    intro p cid body hop
    cases hop
  | cons r rest ih =>
    intro p cid body hop
    unfold commentLoop at hop
    by_cases hskip : (r.isImmutable || r.isMergedPR) = true
    · rw [if_pos hskip] at hop
      exact ih p cid body hop
    · rw [if_neg hskip] at hop
      cases hpr : mapFind prs r.change.gitPushBookmark with
      | none =>
        rw [hpr] at hop
        exact ih p cid body hop
      | some pr =>
        rw [hpr] at hop
        dsimp only at hop
        cases hsc : mapFind sc pr.number with
        | some existing =>
          rw [hsc] at hop
          by_cases heq : existing.body = buildStackComment allRevs prs pr.number
          · simp only [heq, if_true] at hop
            exact ih p cid body hop
          · simp only [heq, if_false] at hop
            cases hup : env.updateCommentRes existing.id
                (buildStackComment allRevs prs pr.number) with
            | some e =>
              rw [hup] at hop
              rw [List.mem_singleton] at hop
              injection hop with h1 h2 h3
              subst h1
              subst h2
              exact ⟨existing, hsc, rfl⟩
            | none =>
              rw [hup] at hop
              rcases List.mem_cons.mp hop with hop1 | hop2
              · injection hop1 with h1 h2 h3
                subst h1
                subst h2
                exact ⟨existing, hsc, rfl⟩
              · exact ih p cid body hop2
        | none =>
          rw [hsc] at hop
          cases hcr : env.createCommentRes pr.number
              (buildStackComment allRevs prs pr.number) with
          | some e =>
            rw [hcr] at hop
            rw [List.mem_singleton] at hop
            cases hop
          | none =>
            rw [hcr] at hop
            rcases List.mem_cons.mp hop with hop1 | hop2
            · cases hop1
            · exact ih p cid body hop2

/-- C10: with pairwise-distinct PR numbers, the marker lookup records, per
queried pull request, exactly the last comment in listing order that
contains the marker, and every update the synchronizer performs uses that
recorded comment identifier — earlier marker comments are never modified. -/
theorem c10_last_marker_comment (env : Env) (stack : Stack)
    (prs : List (String × PullRequest)) (sc : List (Nat × IssueComment))
    (hnd : (prs.map (fun kv => kv.2.number)).Nodup)
    (hok : getPRCommentsContaining env.listComments
      (prs.map (fun kv => kv.2.number)) stackMarker = .ok sc) :
    (∀ p ∈ prs.map (fun kv => kv.2.number), ∃ l, env.listComments p = .ok l ∧
        mapFind sc p = (l.filter (fun c => containsSub c.body stackMarker)).getLast?)
    ∧ (∀ p cid body, CommentOp.update p cid body ∈ (updateAllComments env stack prs).1 →
        ∃ c, mapFind sc p = some c ∧ cid = c.id) := by
  constructor
  · intro p hp
    exact (getPRComments_find env.listComments stackMarker _ hnd [] sc hok p).2 hp rfl
  · intro p cid body hop
    rw [updateAllComments_fst env stack prs sc hok] at hop
    exact commentLoop_update_id env stack.revisions prs sc stack.revisions p cid body hop

/-- The C10 witness environment: PR 1 carries two marker comments (ids 70
and 72) and one unrelated comment between them. -/
def c10Env : Env :=
  { c3Env with
    listComments := fun _ =>
      .ok [⟨70, stackMarker ++ " old1"⟩, ⟨71, "surely unrelated"⟩,
           ⟨72, stackMarker ++ " old2"⟩] }

/-- The marker-comment map the C10 witness lookup produces. -/
def c10SC : List (Nat × IssueComment) :=
  [(1, ⟨72, stackMarker ++ " old2"⟩)]

theorem c10_witness :
    (∃ l, c10Env.listComments 1 = .ok l ∧
        mapFind c10SC 1 = (l.filter (fun c => containsSub c.body stackMarker)).getLast?)
    ∧ (∀ p cid body, CommentOp.update p cid body ∈
          (updateAllComments c10Env (NewStack [c3ChangeA] "main" [])
            [("push-aaaa", c3PRA)]).1 →
        ∃ c, mapFind c10SC p = some c ∧ cid = c.id) := by
  have h := c10_last_marker_comment c10Env (NewStack [c3ChangeA] "main" [])
    [("push-aaaa", c3PRA)] c10SC (by decide) (by rfl)
  exact ⟨h.1 1 (by decide), h.2⟩

/-! ## Claim C8: the persisted-entry refresh

The refresh loop is characterized by three pure projections of the snapshot:
the in-place updates it applies (merged markings), the merged display rows it
collects, and the keys it schedules for removal. -/

/-- The in-place update one refresh step applies to one entry: the merged
marking, when the entry left the batch and its PR is reported merged. -/
def refreshSetF (getPR : Nat → Except String (Option PullRequest)) (changes : List Change)
    (kv : String × StackEntry) : Option (String × StackEntry) :=
  if (mapFind (changesById changes) kv.1).isSome then none
  else
    match getPR kv.2.prNumber with
    | .ok (some pr) =>
      if !pr.mergedAtZero then some (kv.1, { kv.2 with state := prStateMerged }) else none
    | _ => none

/-- The merged display row one refresh step collects from one entry. -/
def refreshMergedF (getPR : Nat → Except String (Option PullRequest)) (changes : List Change)
    (kv : String × StackEntry) : Option MergedPR :=
  if (mapFind (changesById changes) kv.1).isSome then none
  else
    match getPR kv.2.prNumber with
    | .ok (some pr) =>
      if !pr.mergedAtZero then some ⟨kv.1, kv.2.prNumber, kv.2.title⟩ else none
    | _ => none

/-- The removal one refresh step schedules for one entry: a deleted PR or a
PR closed without merging. -/
def refreshRemovalF (getPR : Nat → Except String (Option PullRequest)) (changes : List Change)
    (kv : String × StackEntry) : Option String :=
  if (mapFind (changesById changes) kv.1).isSome then none
  else
    match getPR kv.2.prNumber with
    | .ok none => some kv.1
    | .ok (some pr) =>
      if !pr.mergedAtZero then none
      else if pr.state = "closed" then some kv.1 else none
    | .error _ => none

/-- The in-place updates of one refresh pass. -/
def refreshSets (getPR : Nat → Except String (Option PullRequest)) (changes : List Change)
    (snapshot : List (String × StackEntry)) : List (String × StackEntry) :=
  snapshot.filterMap (refreshSetF getPR changes)

/-- The merged display rows one refresh pass collects, in snapshot order. -/
def refreshMergedNew (getPR : Nat → Except String (Option PullRequest)) (changes : List Change)
    (snapshot : List (String × StackEntry)) : List MergedPR :=
  snapshot.filterMap (refreshMergedF getPR changes)

/-- The keys one refresh pass schedules for removal. -/
def refreshRemovals (getPR : Nat → Except String (Option PullRequest)) (changes : List Change)
    (snapshot : List (String × StackEntry)) : List String :=
  snapshot.filterMap (refreshRemovalF getPR changes)

/-- A successful refresh pass applies exactly the three projections. -/
theorem refreshLoop_ok (getPR : Nat → Except String (Option PullRequest))
    (changes : List Change) :
    ∀ (snapshot : List (String × StackEntry)) (st : State) (merged : List MergedPR)
      (toRemove : List String) (stF : State) (mF : List MergedPR) (rF : List String),
      refreshLoop getPR changes snapshot st merged toRemove = .ok (stF, mF, rF) →
      stF = (refreshSets getPR changes snapshot).foldl (fun s kv => s.set kv.1 kv.2) st
      ∧ mF = merged ++ refreshMergedNew getPR changes snapshot
      ∧ rF = toRemove ++ refreshRemovals getPR changes snapshot := by
  intro snapshot
  induction snapshot with
  | nil =>
    intro st merged toRemove stF mF rF h
    injection h with h
    injection h with h1 h2
    injection h2 with h2 h3
    subst h1
    subst h2
    subst h3
    exact ⟨rfl, by simp [refreshMergedNew], by simp [refreshRemovals]⟩
  | cons kv t ih =>
    intro st merged toRemove stF mF rF h
    obtain ⟨k, e⟩ := kv
    unfold refreshLoop at h
    by_cases hik : (mapFind (changesById changes) k).isSome = true
    · rw [if_pos hik] at h
      have hS : refreshSets getPR changes ((k, e) :: t) = refreshSets getPR changes t := by
        simp [refreshSets, refreshSetF, List.filterMap_cons, hik]
      have hM : refreshMergedNew getPR changes ((k, e) :: t)
          = refreshMergedNew getPR changes t := by
        simp [refreshMergedNew, refreshMergedF, List.filterMap_cons, hik]
      have hR : refreshRemovals getPR changes ((k, e) :: t)
          = refreshRemovals getPR changes t := by
        simp [refreshRemovals, refreshRemovalF, List.filterMap_cons, hik]
      rw [hS, hM, hR]
      exact ih st merged toRemove stF mF rF h
    · rw [if_neg hik] at h
      cases hg : getPR e.prNumber with
      | error err =>
        rw [hg] at h
        cases h
      | ok opr =>
        rw [hg] at h
        cases opr with
        | none =>
          have hS : refreshSets getPR changes ((k, e) :: t) = refreshSets getPR changes t := by
            simp [refreshSets, refreshSetF, List.filterMap_cons, hik, hg]
          have hM : refreshMergedNew getPR changes ((k, e) :: t)
              = refreshMergedNew getPR changes t := by
            simp [refreshMergedNew, refreshMergedF, List.filterMap_cons, hik, hg]
          have hR : refreshRemovals getPR changes ((k, e) :: t)
              = k :: refreshRemovals getPR changes t := by
            simp [refreshRemovals, refreshRemovalF, List.filterMap_cons, hik, hg]
          rw [hS, hM, hR]
          obtain ⟨h1, h2, h3⟩ := ih st merged (toRemove ++ [k]) stF mF rF h
          refine ⟨h1, h2, ?_⟩
          rw [h3, List.append_assoc]
          rfl
        | some pr =>
          dsimp only at h
          by_cases hmg : pr.mergedAtZero = true
          · have hnm : ¬((!pr.mergedAtZero) = true) := by simp [hmg]
            rw [if_neg hnm] at h
            by_cases hcl : pr.state = "closed"
            · rw [if_pos hcl] at h
              have hS : refreshSets getPR changes ((k, e) :: t)
                  = refreshSets getPR changes t := by
                simp [refreshSets, refreshSetF, List.filterMap_cons, hik, hg, hmg]
              have hM : refreshMergedNew getPR changes ((k, e) :: t)
                  = refreshMergedNew getPR changes t := by
                simp [refreshMergedNew, refreshMergedF, List.filterMap_cons, hik, hg, hmg]
              have hR : refreshRemovals getPR changes ((k, e) :: t)
                  = k :: refreshRemovals getPR changes t := by
                simp [refreshRemovals, refreshRemovalF, List.filterMap_cons, hik, hg, hmg, hcl]
              rw [hS, hM, hR]
              obtain ⟨h1, h2, h3⟩ := ih st merged (toRemove ++ [k]) stF mF rF h
              refine ⟨h1, h2, ?_⟩
              rw [h3, List.append_assoc]
              rfl
            · rw [if_neg hcl] at h
              have hS : refreshSets getPR changes ((k, e) :: t)
                  = refreshSets getPR changes t := by
                simp [refreshSets, refreshSetF, List.filterMap_cons, hik, hg, hmg]
              have hM : refreshMergedNew getPR changes ((k, e) :: t)
                  = refreshMergedNew getPR changes t := by
                simp [refreshMergedNew, refreshMergedF, List.filterMap_cons, hik, hg, hmg]
              have hR : refreshRemovals getPR changes ((k, e) :: t)
                  = refreshRemovals getPR changes t := by
                simp [refreshRemovals, refreshRemovalF, List.filterMap_cons, hik, hg, hmg, hcl]
              rw [hS, hM, hR]
              exact ih st merged toRemove stF mF rF h
          · have hmg2 : pr.mergedAtZero = false := by
              cases hpm : pr.mergedAtZero
              · rfl
              · exact absurd hpm hmg
            have hym : (!pr.mergedAtZero) = true := by simp [hmg2]
            rw [if_pos hym] at h
            have hS : refreshSets getPR changes ((k, e) :: t)
                = (k, { e with state := prStateMerged }) :: refreshSets getPR changes t := by
              simp [refreshSets, refreshSetF, List.filterMap_cons, hik, hg, hmg2]
            have hM : refreshMergedNew getPR changes ((k, e) :: t)
                = (⟨k, e.prNumber, e.title⟩ : MergedPR) :: refreshMergedNew getPR changes t := by
              simp [refreshMergedNew, refreshMergedF, List.filterMap_cons, hik, hg, hmg2]
            have hR : refreshRemovals getPR changes ((k, e) :: t)
                = refreshRemovals getPR changes t := by
              simp [refreshRemovals, refreshRemovalF, List.filterMap_cons, hik, hg, hmg2]
            rw [hS, hM, hR]
            obtain ⟨h1, h2, h3⟩ := ih (st.set k { e with state := prStateMerged })
              (merged ++ [(⟨k, e.prNumber, e.title⟩ : MergedPR)]) toRemove stF mF rF h
            refine ⟨?_, ?_, h3⟩
            · rw [h1]
              rfl
            · rw [h2, List.append_assoc]
              rfl

/-- Folding removals over a state removes exactly the listed keys. -/
theorem foldl_remove_find :
    ∀ (l : List String) (st : State) (k : String),
      mapFind ((l.foldl State.remove st).entries) k
        = if k ∈ l then none else mapFind st.entries k := by
  intro l
  induction l with
  | nil =>
    intro st k
    rw [List.foldl_nil, if_neg (List.not_mem_nil k)]
  | cons a t ih =>
    intro st k
    rw [List.foldl_cons, ih]
    by_cases hkt : k ∈ t
    · rw [if_pos hkt, if_pos (List.mem_cons_of_mem a hkt)]
    · rw [if_neg hkt]
      by_cases hka : a = k
      · subst hka
        rw [if_pos (List.mem_cons_self a t)]
        exact mapFind_mapRemove_self st.entries a
      · have hkc : ¬ k ∈ a :: t := by
          rw [List.mem_cons]
          rintro (hc | hc)
          · exact hka hc.symm
          · exact hkt hc
        rw [if_neg hkc]
        exact mapFind_mapRemove_other st.entries a k hka

/-- Folding in-place updates over a state overrides exactly the listed
bindings, later writes winning. -/
theorem foldl_set_find :
    ∀ (l : List (String × StackEntry)) (st : State) (k : String),
      mapFind ((l.foldl (fun s kv => s.set kv.1 kv.2) st).entries) k
        = (mapFind l k).elim (mapFind st.entries k) some := by
  intro l
  induction l using List.reverseRecOn with
  | nil => intro st k; rfl
  | append_singleton l a ih =>
    intro st k
    rw [List.foldl_append, List.foldl_cons, List.foldl_nil, mapFind_append_singleton]
    have hset : ((l.foldl (fun s kv => s.set kv.1 kv.2) st).set a.1 a.2).entries
        = mapSet ((l.foldl (fun s kv => s.set kv.1 kv.2) st).entries) a.1 a.2 := rfl
    rw [hset, mapFind_mapSet_eq, ih]
    by_cases hak : a.1 = k
    · rw [if_pos hak, if_pos hak]
      rfl
    · rw [if_neg hak, if_neg hak]

/-- Looking a key up in a key-preserving filterMap of a duplicate-free
association list evaluates the filter on that key's entry. -/
theorem mapFind_filterMap_keyed {β γ : Type} (f : String × β → Option (String × γ))
    (hf : ∀ kv x, f kv = some x → x.1 = kv.1) :
    ∀ (l : List (String × β)), (l.map Prod.fst).Nodup →
      ∀ (k : String) (e : β), (k, e) ∈ l →
        mapFind (l.filterMap f) k = (f (k, e)).map Prod.snd := by
  intro l
  induction l with
  | nil => intro _ k e hm; cases hm
  | cons kv0 t ih =>
    intro hnd k e hm
    have hnd0 : ¬ kv0.1 ∈ t.map Prod.fst := (List.nodup_cons.mp hnd).1
    have hndt : (t.map Prod.fst).Nodup := (List.nodup_cons.mp hnd).2
    rw [List.filterMap_cons]
    rcases List.mem_cons.mp hm with he | hmt
    · have hk0 : kv0.1 = k := by rw [← he]
      have hknot : mapFind (t.filterMap f) k = none := by
        rw [mapFind_eq_none_iff]
        intro x hx
        rcases List.mem_filterMap.mp hx with ⟨kv, hkv, hfkv⟩
        rw [hf kv x hfkv]
        intro hc
        apply hnd0
        rw [hk0, ← hc]
        exact List.mem_map.mpr ⟨kv, hkv, rfl⟩
      cases hf0 : f kv0 with
      | none =>
        dsimp only
        rw [← he] at hf0
        rw [hf0]
        exact hknot
      | some b =>
        dsimp only
        rw [← he] at hf0
        rw [hf0, mapFind_cons, hknot]
        rw [if_pos (hf (k, e) b hf0)]
        rfl
    · have hkne : kv0.1 ≠ k := by
        intro hc
        apply hnd0
        rw [hc]
        exact List.mem_map.mpr ⟨(k, e), hmt, rfl⟩
      cases hf0 : f kv0 with
      | none =>
        dsimp only
        exact ih hndt k e hmt
      | some b =>
        dsimp only
        rw [mapFind_cons, ih hndt k e hmt]
        have hb1 : ¬ b.1 = k := by
          rw [hf kv0 b hf0]
          exact hkne
        rw [if_neg hb1]
        cases hfk : f (k, e) with
        | none => rfl
        | some c => rfl

/-- Membership of a key in a key-valued filterMap of a duplicate-free
association list is decided by the filter on that key's entry. -/
theorem mem_filterMap_keyed {β : Type} (f : String × β → Option String)
    (hf : ∀ kv x, f kv = some x → x = kv.1) :
    ∀ (l : List (String × β)), (l.map Prod.fst).Nodup →
      ∀ (k : String) (e : β), (k, e) ∈ l →
        (k ∈ l.filterMap f ↔ f (k, e) = some k) := by
  intro l
  induction l with
  | nil => intro _ k e hm; cases hm
  | cons kv0 t ih =>
    intro hnd k e hm
    have hnd0 : ¬ kv0.1 ∈ t.map Prod.fst := (List.nodup_cons.mp hnd).1
    have hndt : (t.map Prod.fst).Nodup := (List.nodup_cons.mp hnd).2
    rw [List.filterMap_cons]
    rcases List.mem_cons.mp hm with he | hmt
    · have hk0 : kv0.1 = k := by rw [← he]
      have hknot : ¬ k ∈ t.filterMap f := by
        intro hx
        rcases List.mem_filterMap.mp hx with ⟨kv, hkv, hfkv⟩
        apply hnd0
        rw [hk0, hf kv k hfkv]
        exact List.mem_map.mpr ⟨kv, hkv, rfl⟩
      cases hf0 : f kv0 with
      | none =>
        dsimp only
        rw [← he] at hf0
        rw [hf0]
        constructor
        · intro hx
          exact absurd hx hknot
        · intro hc
          cases hc
      | some x =>
        dsimp only
        rw [← he] at hf0
        have hx : x = k := hf (k, e) x hf0
        subst hx
        constructor
        · intro _
          exact hf0
        · intro _
          exact List.mem_cons_self x (t.filterMap f)
    · have hkne : kv0.1 ≠ k := by
        intro hc
        apply hnd0
        rw [hc]
        exact List.mem_map.mpr ⟨(k, e), hmt, rfl⟩
      cases hf0 : f kv0 with
      | none =>
        dsimp only
        exact ih hndt k e hmt
      | some x =>
        dsimp only
        have hx : x = kv0.1 := hf kv0 x hf0
        rw [List.mem_cons]
        constructor
        · rintro (hc | hc)
          · exact absurd (hc.trans hx).symm hkne
          · exact (ih hndt k e hmt).mp hc
        · intro hc
          exact Or.inr ((ih hndt k e hmt).mpr hc)

/-- The per-entry update function preserves the entry's key. -/
theorem refreshSetF_key (getPR : Nat → Except String (Option PullRequest))
    (changes : List Change) :
    ∀ (kv : String × StackEntry) (x : String × StackEntry),
      refreshSetF getPR changes kv = some x → x.1 = kv.1 := by
  intro kv x hx
  unfold refreshSetF at hx
  by_cases hik : (mapFind (changesById changes) kv.1).isSome = true
  · rw [if_pos hik] at hx
    cases hx
  · rw [if_neg hik] at hx
    cases hg : getPR kv.2.prNumber with
    | error err =>
      rw [hg] at hx
      cases hx
    | ok opr =>
      rw [hg] at hx
      cases opr with
      | none =>
        dsimp only at hx
        cases hx
      | some pr =>
        dsimp only at hx
        by_cases hm : (!pr.mergedAtZero) = true
        · rw [if_pos hm] at hx
          injection hx with hx
          rw [← hx]
        · rw [if_neg hm] at hx
          cases hx

/-- The per-entry removal function yields the entry's own key. -/
theorem refreshRemovalF_key (getPR : Nat → Except String (Option PullRequest))
    (changes : List Change) :
    ∀ (kv : String × StackEntry) (x : String),
      refreshRemovalF getPR changes kv = some x → x = kv.1 := by
  intro kv x hx
  unfold refreshRemovalF at hx
  by_cases hik : (mapFind (changesById changes) kv.1).isSome = true
  · rw [if_pos hik] at hx
    cases hx
  · rw [if_neg hik] at hx
    cases hg : getPR kv.2.prNumber with
    | error err =>
      rw [hg] at hx
      cases hx
    | ok opr =>
      rw [hg] at hx
      cases opr with
      | none =>
        dsimp only at hx
        injection hx with hx
        exact hx.symm
      | some pr =>
        dsimp only at hx
        by_cases hm : (!pr.mergedAtZero) = true
        · rw [if_pos hm] at hx
          cases hx
        · rw [if_neg hm] at hx
          by_cases hcl : pr.state = "closed"
          · rw [if_pos hcl] at hx
            injection hx with hx
            exact hx.symm
          · rw [if_neg hcl] at hx
            cases hx

/-- C8: for every persisted association entry (in a store with pairwise
distinct change identities), a successful refresh pass leaves entries whose
change identity is still present in the current batch bound unchanged; for
an entry whose identity has left the batch it marks the entry merged and
retains it when the hosting service reports its pull request merged — also
listing it among the merged display rows — removes the entry when the pull
request is no longer retrievable or was closed without merging, and leaves
it unchanged when the pull request is still open. -/
theorem c8_refresh_entries (getPR : Nat → Except String (Option PullRequest))
    (changes : List Change) (pst : State) (stF : State) (mF : List MergedPR)
    (hnd : (pst.entries.map Prod.fst).Nodup)
    (hok : refreshEntries getPR changes pst = .ok (stF, mF)) :
    ∀ k e, (k, e) ∈ pst.entries →
      ((mapFind (changesById changes) k).isSome = true →
        mapFind stF.entries k = some e)
      ∧ ((mapFind (changesById changes) k).isSome = false →
        (getPR e.prNumber = .ok none → mapFind stF.entries k = none)
        ∧ (∀ pr, getPR e.prNumber = .ok (some pr) →
            (pr.mergedAtZero = false →
              mapFind stF.entries k = some { e with state := prStateMerged }
              ∧ (⟨k, e.prNumber, e.title⟩ : MergedPR) ∈ mF)
            ∧ (pr.mergedAtZero = true → pr.state = "closed" →
                mapFind stF.entries k = none)
            ∧ (pr.mergedAtZero = true → pr.state ≠ "closed" →
                mapFind stF.entries k = some e))) := by
  unfold refreshEntries at hok
  cases hrl : refreshLoop getPR changes pst.entries pst [] [] with
  | error e0 =>
    rw [hrl] at hok
    cases hok
  | ok triple =>
    rw [hrl] at hok
    obtain ⟨st', m', r'⟩ := triple
    dsimp only at hok
    injection hok with hok
    injection hok with hok1 hok2
    obtain ⟨h1, h2, h3⟩ := refreshLoop_ok getPR changes pst.entries pst [] [] st' m' r' hrl
    rw [List.nil_append] at h2 h3
    intro k e hm
    have hbase : mapFind pst.entries k = some e := mapFind_of_nodup_mem hnd hm
    have hstF : mapFind stF.entries k
        = if k ∈ refreshRemovals getPR changes pst.entries then none
          else (mapFind (refreshSets getPR changes pst.entries) k).elim (some e) some := by
      rw [← hok1, h3, foldl_remove_find]
      by_cases hkr : k ∈ refreshRemovals getPR changes pst.entries
      · rw [if_pos hkr, if_pos hkr]
      · rw [if_neg hkr, if_neg hkr, h1, foldl_set_find, hbase]
    have hfindS : mapFind (refreshSets getPR changes pst.entries) k
        = (refreshSetF getPR changes (k, e)).map Prod.snd :=
      mapFind_filterMap_keyed (refreshSetF getPR changes)
        (refreshSetF_key getPR changes) pst.entries hnd k e hm
    have hmemR : k ∈ refreshRemovals getPR changes pst.entries
        ↔ refreshRemovalF getPR changes (k, e) = some k :=
      mem_filterMap_keyed (refreshRemovalF getPR changes)
        (refreshRemovalF_key getPR changes) pst.entries hnd k e hm
    refine ⟨?_, ?_⟩
    · intro hik
      have hfS : refreshSetF getPR changes (k, e) = none := by
        simp [refreshSetF, hik]
      have hfR : refreshRemovalF getPR changes (k, e) = none := by
        simp [refreshRemovalF, hik]
      have hknotR : ¬ k ∈ refreshRemovals getPR changes pst.entries := by
        rw [hmemR, hfR]
        intro hc
        cases hc
      rw [hstF, if_neg hknotR, hfindS, hfS]
      rfl
    · intro hik
      refine ⟨?_, ?_⟩
      · intro hg
        have hfR : refreshRemovalF getPR changes (k, e) = some k := by
          simp [refreshRemovalF, hik, hg]
        rw [hstF, if_pos (hmemR.mpr hfR)]
      · intro pr hg
        refine ⟨?_, ?_, ?_⟩
        · intro hmg
          have hfS : refreshSetF getPR changes (k, e)
              = some (k, { e with state := prStateMerged }) := by
            simp [refreshSetF, hik, hg, hmg]
          have hfR : refreshRemovalF getPR changes (k, e) = none := by
            simp [refreshRemovalF, hik, hg, hmg]
          have hknotR : ¬ k ∈ refreshRemovals getPR changes pst.entries := by
            rw [hmemR, hfR]
            intro hc
            cases hc
          constructor
          · rw [hstF, if_neg hknotR, hfindS, hfS]
            rfl
          · rw [← hok2, h2]
            exact List.mem_filterMap.mpr ⟨(k, e), hm, by simp [refreshMergedF, hik, hg, hmg]⟩
        · intro hmg hcl
          have hfR : refreshRemovalF getPR changes (k, e) = some k := by
            simp [refreshRemovalF, hik, hg, hmg, hcl]
          rw [hstF, if_pos (hmemR.mpr hfR)]
        · intro hmg hcl
          have hfS : refreshSetF getPR changes (k, e) = none := by
            simp [refreshSetF, hik, hg, hmg]
          have hfR : refreshRemovalF getPR changes (k, e) = none := by
            simp [refreshRemovalF, hik, hg, hmg, hcl]
          have hknotR : ¬ k ∈ refreshRemovals getPR changes pst.entries := by
            rw [hmemR, hfR]
            intro hc
            cases hc
          rw [hstF, if_neg hknotR, hfindS, hfS]
          rfl

/-- The only change of the C8 witness batch. -/
def c8Change : Change :=
  { id := "inbatch", commitID := "c0", immutable := false, gitPushBookmark := "push-i",
    description := "d", bookmarks := [], parents := [] }

/-- The C8 witness batch. -/
def c8Changes : List Change := [c8Change]

/-- The merged remote PR of the C8 witness (MergedAt is set). -/
def c8PRMergedRes : PullRequest :=
  { number := 11, title := "t11", body := "", headRef := "b11", headSHA := "s11",
    baseRef := "main", draft := false, closedAtSet := true, mergedAtZero := false,
    state := "closed" }

/-- The closed-without-merging remote PR of the C8 witness. -/
def c8PRClosedRes : PullRequest :=
  { number := 12, title := "t12", body := "", headRef := "b12", headSHA := "s12",
    baseRef := "main", draft := false, closedAtSet := true, mergedAtZero := true,
    state := "closed" }

/-- The still-open remote PR of the C8 witness. -/
def c8PROpenRes : PullRequest :=
  { number := 14, title := "t14", body := "", headRef := "b14", headSHA := "s14",
    baseRef := "main", draft := false, closedAtSet := false, mergedAtZero := true,
    state := "open" }

/-- The C8 witness PR oracle: PR 11 merged, PR 12 closed unmerged, PR 13
deleted, PR 14 still open. -/
def c8GetPR : Nat → Except String (Option PullRequest) := fun n =>
  if n = 11 then .ok (some c8PRMergedRes)
  else if n = 12 then .ok (some c8PRClosedRes)
  else if n = 13 then .ok none
  else if n = 14 then .ok (some c8PROpenRes)
  else .error "unexpected PR number"

/-- The C8 witness entry still in the batch. -/
def c8E1 : StackEntry := { prNumber := 10, branch := "b10", state := "open", title := "t10" }

/-- The C8 witness entry whose PR merged. -/
def c8E2 : StackEntry := { prNumber := 11, branch := "b11", state := "open", title := "t11" }

/-- The C8 witness entry whose PR closed without merging. -/
def c8E3 : StackEntry := { prNumber := 12, branch := "b12", state := "open", title := "t12" }

/-- The C8 witness entry whose PR was deleted. -/
def c8E4 : StackEntry := { prNumber := 13, branch := "b13", state := "open", title := "t13" }

/-- The C8 witness entry whose PR is still open. -/
def c8E5 : StackEntry := { prNumber := 14, branch := "b14", state := "open", title := "t14" }

/-- The C8 witness persisted store before the refresh. -/
def c8Pst : State :=
  { version := 1,
    entries := [("inbatch", c8E1), ("gone-merged", c8E2), ("gone-closed", c8E3),
                ("gone-deleted", c8E4), ("gone-open", c8E5)] }

/-- The store the C8 witness refresh produces. -/
def c8StF : State :=
  { version := 1,
    entries := [("inbatch", c8E1), ("gone-merged", { c8E2 with state := prStateMerged }),
                ("gone-open", c8E5)] }

/-- The merged display rows the C8 witness refresh produces. -/
def c8MF : List MergedPR := [⟨"gone-merged", 11, "t11"⟩]

theorem c8_witness :
    mapFind c8StF.entries "inbatch" = some c8E1
    ∧ (mapFind c8StF.entries "gone-merged" = some { c8E2 with state := prStateMerged }
        ∧ (⟨"gone-merged", c8E2.prNumber, c8E2.title⟩ : MergedPR) ∈ c8MF)
    ∧ mapFind c8StF.entries "gone-closed" = none
    ∧ mapFind c8StF.entries "gone-deleted" = none
    ∧ mapFind c8StF.entries "gone-open" = some c8E5 := by
  have h := c8_refresh_entries c8GetPR c8Changes c8Pst c8StF c8MF (by decide) (by rfl)
  refine ⟨?_, ?_, ?_, ?_, ?_⟩
  · exact (h "inbatch" c8E1 (by decide)).1 (by decide)
  · exact ((h "gone-merged" c8E2 (by decide)).2 (by decide)).2 c8PRMergedRes (by rfl)
      |>.1 (by rfl)
  · exact (((h "gone-closed" c8E3 (by decide)).2 (by decide)).2 c8PRClosedRes
      (by rfl)).2.1 (by rfl) (by rfl)
  · exact ((h "gone-deleted" c8E4 (by decide)).2 (by decide)).1 (by rfl)
  · exact (((h "gone-open" c8E5 (by decide)).2 (by decide)).2 c8PROpenRes
      (by rfl)).2.2 (by rfl) (by decide)

end JJGithub
